import Mathlib

/-!
# rss-influxdb: feed normalisation and ingestion

A shallow embedding of `rss.go`.  Go strings are Lean `String`s (the library
routines used here only ever compare against ASCII bytes, so reading a UTF-8
string character by character agrees with reading it byte by byte).  Library
packages keep their Go names as namespaces (`html`, `strings`, `time`, `xml`,
`client`); the functions of `rss.go` keep theirs.
-/

namespace RssInflux

/-! ## `html` and `strings` -/

namespace html

/-- The replacement table of `html.EscapeString`: ampersand, single quote
(code 39), less-than, greater-than and double quote (code 34) become
`&amp;`, `&#39;`, `&lt;`, `&gt;` and `&#34;`; every other character is kept. -/
def escapeChar (c : Char) : List Char :=
  if c = '&' then ['&', 'a', 'm', 'p', ';']
  else if c = Char.ofNat 39 then ['&', '#', '3', '9', ';']
  else if c = '<' then ['&', 'l', 't', ';']
  else if c = '>' then ['&', 'g', 't', ';']
  else if c = Char.ofNat 34 then ['&', '#', '3', '4', ';']
  else [c]

/-- Go `html.EscapeString`. -/
def EscapeString (s : String) : String :=
  ⟨s.data.flatMap escapeChar⟩

end html

namespace strings

/-- Whether `p` is an initial segment of `s`. -/
def startsWith : List Char → List Char → Bool
  | [], _ => true
  | _ :: _, [] => false
  | a :: p, b :: s => a == b && startsWith p s

/-- The scan of `strings.Replace` with no limit, for a non-empty `old`:
`skip` counts the characters of a matched `old` still to be dropped. -/
def replaceScan (old new : List Char) : Nat → List Char → List Char
  | _, [] => []
  | skip + 1, _ :: s => replaceScan old new skip s
  | 0, c :: s =>
    if startsWith old (c :: s) then new ++ replaceScan old new (old.length - 1) s
    else c :: replaceScan old new 0 s

/-- Go `strings.Replace(s, old, new, -1)`: every non-overlapping instance of
`old` replaced by `new`; an empty `old` matches before every character and at
the end. -/
def ReplaceAll (s old new : String) : String :=
  if old.data = [] then ⟨new.data ++ s.data.flatMap (fun c => c :: new.data)⟩
  else ⟨replaceScan old.data new.data 0 s.data⟩

end strings

/-! ## `time` -/

namespace time

/-- What a Go `Location` contributes to a `Time`: the zone it has in effect at
that instant, as `Time.Zone` returns it, namely the abbreviation and the
offset east of UTC in seconds. -/
structure Location where
  name : String
  offset : Int
deriving DecidableEq, Repr

/-- Go `time.UTC`. -/
def UTC : Location := ⟨"UTC", 0⟩

/-- Go `time.Time`: seconds since the Unix epoch, the nanoseconds within the
second, and the location. -/
structure Time where
  unixSec : Int
  nsec : Nat
  loc : Location
deriving DecidableEq, Repr

/-- Go `Time.IsZero`: the instant 1 January of year 1, 00:00:00 UTC. -/
def Time.IsZero (t : Time) : Bool := t.unixSec == -62135596800 && t.nsec == 0

/-- The nanoseconds since the Unix epoch as an unbounded integer (Go
`Time.UnixNano` where that fits 64 bits). -/
def Time.UnixNano (t : Time) : Int := t.unixSec * 1000000000 + t.nsec

/-- Go `Time.Unix`. -/
def Time.Unix (t : Time) : Int := t.unixSec

/-! ### `time.Parse` for the two layouts of `timeFmts`

`time.Parse` walks the layout chunk by chunk.  The chunk parsers below are
those of package `time` (`getnum`, `lookup`, `skip`, ...); only success or
failure is kept of an error.  The parsers stop at the first failing chunk. -/

/-- Go `isDigit(s, 0)` on the head of a string. -/
def isDigit (c : Char) : Bool := decide (48 ≤ c.toNat ∧ c.toNat ≤ 57)

def digitVal (c : Char) : Nat := c.toNat - 48

/-- Go `getnum`: one or two digits, exactly two when `fixed`. -/
def getnum (s : List Char) (fixed : Bool) : Option (Nat × List Char) :=
  match s with
  | [] => none
  | c :: s1 =>
    if isDigit c then
      match s1 with
      | [] => if fixed then none else some (digitVal c, s1)
      | d :: s2 =>
        if isDigit d then some (digitVal c * 10 + digitVal d, s2)
        else if fixed then none
        else some (digitVal c, s1)
    else none

/-- The chunk `2006`: exactly four digits. -/
def longYear (value : List Char) : Option (Nat × List Char) :=
  match value with
  | a :: b :: c :: d :: rest =>
    if isDigit a && isDigit b && isDigit c && isDigit d then
      some (((digitVal a * 10 + digitVal b) * 10 + digitVal c) * 10 + digitVal d, rest)
    else none
  | _ => none

def cutspace : List Char → List Char
  | [] => []
  | c :: s => if c = ' ' then cutspace s else c :: s

/-- Go `skip`, by recursion on the literal text of the layout: a space of the
layout needs a space (or the end) in the value and then swallows the whole
run of spaces on both sides; `inRun` says that the layout is inside such a
run. -/
def skipFrom : Bool → List Char → List Char → Option (List Char)
  | _, value, [] => some value
  | inRun, value, p :: layout =>
    if p = ' ' then
      if inRun then skipFrom true value layout
      else
        match value with
        | [] => skipFrom true [] layout
        | v :: _ => if v = ' ' then skipFrom true (cutspace value) layout else none
    else
      match value with
      | [] => none
      | v :: rest => if v = p then skipFrom false rest layout else none

def skip (value layout : List Char) : Option (List Char) := skipFrom false value layout

/-- One step of Go `match`: equal bytes, or equal letters up to case. -/
def matchByte (c1 c2 : Char) : Bool :=
  if c1 = c2 then true
  else
    decide ((c1.toNat ||| 32) = (c2.toNat ||| 32)
      ∧ 97 ≤ (c1.toNat ||| 32) ∧ (c1.toNat ||| 32) ≤ 122)

def matchName : List Char → List Char → Bool
  | [], _ => true
  | _ :: _, [] => false
  | c1 :: s1, c2 :: s2 => matchByte c1 c2 && matchName s1 s2

def lookupFrom (i : Nat) : List (List Char) → List Char → Option (Nat × List Char)
  | [], _ => none
  | v :: tab, val =>
    if v.length ≤ val.length && matchName (val.take v.length) v then
      some (i, val.drop v.length)
    else lookupFrom (i + 1) tab val

/-- Go `lookup`: the index of the first name of the table the value starts
with, and the rest of the value. -/
def lookup (tab : List (List Char)) (val : List Char) : Option (Nat × List Char) :=
  lookupFrom 0 tab val

def shortDayNames : List (List Char) :=
  [['S', 'u', 'n'], ['M', 'o', 'n'], ['T', 'u', 'e'], ['W', 'e', 'd'], ['T', 'h', 'u'],
   ['F', 'r', 'i'], ['S', 'a', 't']]

def shortMonthNames : List (List Char) :=
  [['J', 'a', 'n'], ['F', 'e', 'b'], ['M', 'a', 'r'], ['A', 'p', 'r'], ['M', 'a', 'y'],
   ['J', 'u', 'n'], ['J', 'u', 'l'], ['A', 'u', 'g'], ['S', 'e', 'p'], ['O', 'c', 't'],
   ['N', 'o', 'v'], ['D', 'e', 'c']]

def isLeap (year : Nat) : Bool :=
  year % 4 = 0 && (year % 100 ≠ 0 || year % 400 = 0)

/-- Go `daysBefore[m]`: the days of a non-leap year before month `m + 1`. -/
def daysBefore : Nat → Nat
  | 0 => 0
  | 1 => 31
  | 2 => 59
  | 3 => 90
  | 4 => 120
  | 5 => 151
  | 6 => 181
  | 7 => 212
  | 8 => 243
  | 9 => 273
  | 10 => 304
  | 11 => 334
  | _ => 365

def daysIn (m year : Nat) : Nat :=
  if m = 2 ∧ isLeap year then 29 else daysBefore m - daysBefore (m - 1)

/-- The days from 1 January of year 0 to 1 January of `year` in the proleptic
Gregorian calendar. -/
def daysBeforeYear (year : Nat) : Nat :=
  365 * year + (year + 3) / 4 - (year + 99) / 100 + (year + 399) / 400

/-- Go `time.Date(year, month, day, hour, min, sec, nsec, time.UTC)` for
arguments in range, which is all `Parse` calls it with; 719528 days lie
between 1 January of year 0 and the Unix epoch. -/
def Date (year month day hour min sec nsec : Nat) : Time :=
  let d := daysBeforeYear year + daysBefore (month - 1)
    + (if isLeap year ∧ 3 ≤ month then 1 else 0) + (day - 1)
  { unixSec := ((d : Int) - 719528) * 86400 + hour * 3600 + min * 60 + sec
    nsec := nsec
    loc := UTC }

/-- A fractional second in the value where the layout has none: a period or
comma and at least one digit; at most nine digits count. -/
def fraction (value : List Char) : Nat × List Char :=
  match value with
  | c :: d :: rest =>
    if (c = '.' ∨ c = ',') ∧ isDigit d then
      let kept := ((d :: rest).takeWhile isDigit).take 9
      (kept.foldl (fun n x => n * 10 + digitVal x) 0 * 10 ^ (9 - kept.length),
        (d :: rest).dropWhile isDigit)
    else (0, value)
  | _ => (0, value)

/-- The chunk `Z07:00`: `Z` (result `none`, the zone is UTC), or a sign, two
digits, a colon and two digits (result the offset east of UTC in seconds). -/
def colonTZ (value : List Char) : Option (Option Int × List Char) :=
  match value with
  | [] => none
  | s :: v1 =>
    if s = 'Z' then some (none, v1)
    else
      match v1 with
      | h1 :: h2 :: c :: m1 :: m2 :: rest =>
        if c = ':' then
          match getnum [h1, h2] true, getnum [m1, m2] true with
          | some (hr, _), some (mm, _) =>
            if hr > 24 ∨ mm > 60 then none
            else if s = '+' then some (some (((hr * 60 + mm) * 60 : Nat) : Int), rest)
            else if s = '-' then some (some (-(((hr * 60 + mm) * 60 : Nat) : Int)), rest)
            else none
          | _, _ => none
        else none
      | _ => none

/-- What `time.Parse` takes from its environment.  `abbreviation` splits a
zone abbreviation off the head of the value at the chunk `MST` (Go
`parseTimeZone`); `lookupName name unix` is the offset the process's Local
location gives that abbreviation around the given reading, if it knows it
(`local.lookupName`); `fabricatedOffset name` is the offset of the zone
`Parse` fabricates for an abbreviation Local does not know (0, or the hours
after `GMT`); `localZone unix` is the zone Local has in effect at an instant. -/
structure Zones where
  abbreviation : List Char → Option (List Char × List Char)
  lookupName : List Char → Int → Option Int
  fabricatedOffset : List Char → Int
  localZone : Int → Location

/-- The location `Parse` gives a time read with a numeric offset: Local when
Local has that offset at the instant, a fabricated zone without a name
otherwise. -/
def offsetLocation (z : Zones) (unixSec zoneOffset : Int) : Location :=
  if (z.localZone unixSec).offset = zoneOffset then z.localZone unixSec else ⟨"", zoneOffset⟩

/-- The end of `Parse`: no text may be left, and the day must exist in the
month. -/
def finish (year month day hour min sec nsec : Nat) (value : List Char) : Option Time :=
  if value ≠ [] then none
  else if day < 1 ∨ daysIn month year < day then none
  else some (Date year month day hour min sec nsec)

/-- The chunks `04:05` and a fractional second after them. -/
def minSec (value : List Char) : Option ((Nat × Nat × Nat) × List Char) :=
  match getnum value true with
  | none => none
  | some (min, value) =>
    if 60 ≤ min then none
    else
      match skip value [':'] with
      | none => none
      | some value =>
        match getnum value true with
        | none => none
        | some (sec, value) =>
          if 60 ≤ sec then none
          else some ((min, sec, (fraction value).1), (fraction value).2)

/-- The chunks `15:04:05`. -/
def clock (value : List Char) : Option ((Nat × Nat × Nat × Nat) × List Char) :=
  match getnum value false with
  | none => none
  | some (hour, value) =>
    if 24 ≤ hour then none
    else
      match skip value [':'] with
      | none => none
      | some value =>
        match minSec value with
        | none => none
        | some ((min, sec, nsec), value) => some ((hour, min, sec, nsec), value)

/-- The chunks `2006-01-02`. -/
def isoDate (value : List Char) : Option ((Nat × Nat × Nat) × List Char) :=
  match longYear value with
  | none => none
  | some (year, value) =>
    match skip value ['-'] with
    | none => none
    | some value =>
      match getnum value true with
      | none => none
      | some (month, value) =>
        if month = 0 ∨ 12 < month then none
        else
          match skip value ['-'] with
          | none => none
          | some value =>
            match getnum value true with
            | none => none
            | some (day, value) => some ((year, month, day), value)

/-- Go `time.Parse(time.RFC3339, value)`. -/
def parseRFC3339 (z : Zones) (value : List Char) : Option Time :=
  match isoDate value with
  | none => none
  | some ((year, month, day), value) =>
    match skip value ['T'] with
    | none => none
    | some value =>
      match clock value with
      | none => none
      | some ((hour, min, sec, nsec), value) =>
        match colonTZ value with
        | none => none
        | some (zone, value) =>
          match finish year month day hour min sec nsec value with
          | none => none
          | some t =>
            match zone with
            | none => some t
            | some zoneOffset =>
              some { unixSec := t.unixSec - zoneOffset
                     nsec := t.nsec
                     loc := offsetLocation z (t.unixSec - zoneOffset) zoneOffset }

/-- The chunks `Mon, _2`: a weekday name (its value is ignored), a comma and
spaces, then a day of one or two digits after at most one more space. -/
def rssDay (value : List Char) : Option (Nat × List Char) :=
  match lookup shortDayNames value with
  | none => none
  | some (_, value) =>
    match skip value [',', ' '] with
    | none => none
    | some value =>
      getnum (match value with
        | [] => []
        | c :: rest => if c = ' ' then rest else c :: rest) false

/-- The chunks `Mon, _2 Jan 2006`. -/
def rssDate (value : List Char) : Option ((Nat × Nat × Nat) × List Char) :=
  match rssDay value with
  | none => none
  | some (day, value) =>
    match skip value [' '] with
    | none => none
    | some value =>
      match lookup shortMonthNames value with
      | none => none
      | some (m, value) =>
        match skip value [' '] with
        | none => none
        | some value =>
          match longYear value with
          | none => none
          | some (year, value) => some ((year, m + 1, day), value)

/-- The chunk `MST`: `UTC` (result `none`), or an abbreviation. -/
def zoneName (z : Zones) (value : List Char) : Option (Option (List Char) × List Char) :=
  match value with
  | 'U' :: 'T' :: 'C' :: rest => some (none, rest)
  | _ =>
    match z.abbreviation value with
    | none => none
    | some (name, rest) => some (some name, rest)

/-- Go `time.Parse("Mon, _2 Jan 2006 15:04:05 MST", value)`. -/
def parseRSS (z : Zones) (value : List Char) : Option Time :=
  match rssDate value with
  | none => none
  | some ((year, month, day), value) =>
    match skip value [' '] with
    | none => none
    | some value =>
      match clock value with
      | none => none
      | some ((hour, min, sec, nsec), value) =>
        match skip value [' '] with
        | none => none
        | some value =>
          match zoneName z value with
          | none => none
          | some (zone, value) =>
            match finish year month day hour min sec nsec value with
            | none => none
            | some t =>
              match zone with
              | none => some t
              | some name =>
                match z.lookupName name t.unixSec with
                | some offset =>
                  some { unixSec := t.unixSec - offset
                         nsec := t.nsec
                         loc := z.localZone (t.unixSec - offset) }
                | none =>
                  some { t with loc := ⟨String.mk name, z.fabricatedOffset name⟩ }

/-- The two keys of the map `timeFmts` in `UnmarshalXML`. -/
inductive Layout where
  | rss
  | rfc3339
deriving DecidableEq, Repr

def Layout.pattern : Layout → String
  | .rss => "Mon, _2 Jan 2006 15:04:05 MST"
  | .rfc3339 => "2006-01-02T15:04:05Z07:00"

/-- Go `time.Parse(layout, value)` for the two layouts the program uses;
`none` is a non-nil error. -/
def Parse (z : Zones) (layout : Layout) (value : String) : Option Time :=
  match layout with
  | .rss => parseRSS z value.data
  | .rfc3339 => parseRFC3339 z value.data

/-! ### `Time.Format` -/

/-- The year within a 400-year cycle that holds day `r` of the cycle: an
estimate from the mean length of a year, corrected by one either way. -/
def yearOfCycle (r : Nat) : Nat :=
  let g := r * 400 / 146097
  if r < daysBeforeYear g then g - 1
  else if daysBeforeYear (g + 1) ≤ r then g + 1
  else g

/-- Month and day of the month from the day of the year (from 0), as Go
`absDate` finds them. -/
def monthDay (leap : Bool) (yday : Nat) : Nat × Nat :=
  if leap ∧ yday = 59 then (2, 29)
  else
    let day := if leap ∧ 59 < yday then yday - 1 else yday
    let month := day / 31
    if daysBefore (month + 1) ≤ day then (month + 2, day - daysBefore (month + 1) + 1)
    else (month + 1, day - daysBefore month + 1)

structure Civil where
  year : Int
  month : Nat
  day : Nat
  hour : Nat
  min : Nat
  sec : Nat
  weekday : Nat
deriving DecidableEq, Repr

/-- The date and clock that a count of seconds since the epoch reads as (Go
`Time.Date`, `Time.Clock`, `Time.Weekday` on the seconds shifted by the zone
offset; Sunday is 0 and the epoch fell on a Thursday). -/
def civil (unixSec : Int) : Civil :=
  let days := unixSec / 86400
  let secs := (unixSec % 86400).toNat
  let a := days + 719528
  let r := (a % 146097).toNat
  let y := yearOfCycle r
  let md := monthDay (isLeap y) (r - daysBeforeYear y)
  { year := 400 * (a / 146097) + y
    month := md.1
    day := md.2
    hour := secs / 3600
    min := secs % 3600 / 60
    sec := secs % 60
    weekday := ((days + 4) % 7).toNat }

/-- Go `appendInt`: a minus sign for a negative number, then its decimal
digits padded with zeros to `width`. -/
def appendInt (x : Int) (width : Nat) : List Char :=
  let u := x.natAbs
  let sign := if x < 0 then ['-'] else []
  if width = 2 ∧ u < 100 then sign ++ [Nat.digitChar (u / 10), Nat.digitChar (u % 10)]
  else if width = 4 ∧ u < 10000 then
    sign ++ [Nat.digitChar (u / 1000), Nat.digitChar (u / 100 % 10),
      Nat.digitChar (u / 10 % 10), Nat.digitChar (u % 10)]
  else
    let ds := Nat.toDigits 10 u
    sign ++ List.replicate (width - ds.length) '0' ++ ds

def formatClock (c : Civil) : List Char :=
  appendInt c.hour 2 ++ [':'] ++ appendInt c.min 2 ++ [':'] ++ appendInt c.sec 2

/-- The numeric zone `Format` writes: a sign, then hours and minutes of the
offset cut to whole minutes (Go `/` truncates toward zero), with a colon
between them for the chunk `Z07:00`. -/
def formatOffset (offset : Int) (colon : Bool) : List Char :=
  let zone := Int.tdiv offset 60
  (if zone < 0 then ['-'] else ['+']) ++ appendInt ((zone.natAbs / 60 : Nat) : Int) 2
    ++ (if colon then [':'] else []) ++ appendInt ((zone.natAbs % 60 : Nat) : Int) 2

/-- The chunk `MST` of `Format`: the abbreviation of the zone, or the numeric
zone when it has none. -/
def formatZone (loc : Location) : List Char :=
  if loc.name ≠ "" then loc.name.data else formatOffset loc.offset false

/-- The chunk `Z07:00` of `Format`: `Z` at offset 0, the numeric zone
otherwise. -/
def formatColonTZ (loc : Location) : List Char :=
  if loc.offset = 0 then ['Z'] else formatOffset loc.offset true

/-- Go `t.Format(layout)` for the two layouts: date and clock are those of
the instant in the zone of `t`. -/
def Time.Format (t : Time) (layout : Layout) : String :=
  let c := civil (t.unixSec + t.loc.offset)
  match layout with
  | .rss =>
    ⟨shortDayNames.getD c.weekday [] ++ [',', ' ']
      ++ (if c.day < 10 then [' '] else []) ++ appendInt c.day 0 ++ [' ']
      ++ shortMonthNames.getD (c.month - 1) [] ++ [' ']
      ++ appendInt c.year 4 ++ [' '] ++ formatClock c ++ [' '] ++ formatZone t.loc⟩
  | .rfc3339 =>
    ⟨appendInt c.year 4 ++ ['-'] ++ appendInt c.month 2 ++ ['-'] ++ appendInt c.day 2
      ++ ['T'] ++ formatClock c ++ formatColonTZ t.loc⟩

/-- Whether `Parse` reads the zone of `t` back from what `Format` writes for
it.  For RFC3339 the offset must be a whole number of minutes and less than
25 hours in magnitude.  For the RSS style the zone must have an abbreviation
that the chunk `MST` reads in full, and the offset `Parse` then subtracts (0
for `UTC` and for an abbreviation Local does not know) must be the zone's. -/
def zoneReadsBack (z : Zones) (t : Time) : Layout → Bool
  | .rfc3339 =>
    decide (t.loc.offset % 60 = 0 ∧ -90000 < t.loc.offset ∧ t.loc.offset < 90000)
  | .rss =>
    match zoneName z (cutspace t.loc.name.data) with
    | some (none, []) => decide (t.loc.name ≠ "" ∧ t.loc.offset = 0)
    | some (some name, []) =>
      decide (t.loc.name ≠ ""
        ∧ (z.lookupName name (t.unixSec + t.loc.offset)).getD 0 = t.loc.offset)
    | _ => false

def isUpper (c : Char) : Bool := decide (65 ≤ c.toNat ∧ c.toNat ≤ 90)

/-- A sample environment whose Local location is UTC: an abbreviation is
three upper-case letters, or four or five ending in `T`; Local knows the
offset of none, and the fabricated zone has offset 0. -/
def sampleZones : Zones :=
  { abbreviation := fun value =>
      let n := (value.takeWhile isUpper).length
      if n = 3 ∨ ((n = 4 ∨ n = 5) ∧ value.get? (n - 1) = some 'T') then
        some (value.take n, value.drop n)
      else none
    lookupName := fun _ _ => none
    fabricatedOffset := fun _ => 0
    localZone := fun _ => UTC }

end time

/-! ## Data model of `rss.go` -/

structure eventTime where
  Time : time.Time
deriving DecidableEq, Repr

/-- The promoted method `eventTime.Unix`. -/
def eventTime.Unix (e : eventTime) : Int := e.Time.Unix

structure AtomAuthor where
  Name : String
deriving DecidableEq, Repr

structure AtomEvent where
  Title : String
  Content : String
  Url : String
  Updated : eventTime
  ID : String
deriving DecidableEq, Repr

structure AtomFeed where
  Version : String
  Author : List AtomAuthor
  Title : String
  Updated : String
  Event : List AtomEvent
deriving DecidableEq, Repr

structure RSSEvent where
  Title : String
  Text : String
  Link : String
  Guid : String
  PubDate : eventTime
  Updated : String
deriving DecidableEq, Repr

structure RSSChannel where
  Title : String
  Description : String
  Link : String
  Language : String
  PubDate : String
  LastBuildDate : String
  Event : List RSSEvent
deriving DecidableEq, Repr

/-- `Channel` is a pointer in the source: `none` is the nil pointer. -/
structure RSSFeed where
  Version : String
  Channel : Option RSSChannel
deriving DecidableEq, Repr

structure Feed where
  «Type» : String
  Atom : AtomFeed
  RSS : RSSFeed
deriving DecidableEq, Repr

structure Influx where
  Database : String
  Host : String
  Port : Int
  Username : String
  Password : String
deriving DecidableEq, Repr

structure InfluxEvent where
  Title : String
  Text : String
  Url : String
  Measurement : String
  ID : String
  Time : eventTime
deriving DecidableEq, Repr

/-- The zero values `AtomFeed{}` and `RSSFeed{}`. -/
def AtomFeed.zero : AtomFeed := ⟨"", [], "", "", []⟩

def RSSFeed.zero : RSSFeed := ⟨"", none⟩

/-! ## Normalisation (the two struct literals of `main`) -/

/-- The `InfluxEvent` literal of the `feed.Type == "RSS"` branch of `main`;
`ID` is left at its zero value. -/
def rssInfluxEvent (rss : String) (event : RSSEvent) : InfluxEvent :=
  { Title := event.Title
    Text := event.Text
    Url := event.Guid
    Measurement := rss
    ID := ""
    Time := event.PubDate }

/-- The `InfluxEvent` literal of the `feed.Type == "Atom"` branch of `main`;
`Url` is left at its zero value. -/
def atomInfluxEvent (rss : String) (event : AtomEvent) : InfluxEvent :=
  { Title := html.EscapeString event.Title
    Text := strings.ReplaceAll (html.EscapeString event.Content) "\n" "<br>"
    Url := ""
    Measurement := rss
    ID := html.EscapeString event.ID
    Time := event.Updated }


/-! ## The sink: `client` of `influxdb/client/v2` and `writeEventToInflux` -/

/-- Go `error` values the program creates or receives. -/
inductive GoError where
  | statusError (code : Nat)
  | format
  | xmlError (msg : String)
  | other (msg : String)
deriving DecidableEq, Repr

/-- What the process has sent to its logger. -/
inductive LogEntry where
  | info (msg : String)
  | items (length : Nat) (feedType url : String)
  | error (e : GoError)
  | errorMsg (msg : String)
deriving DecidableEq, Repr

namespace client

/-- The bytes a string takes once each of the given characters is escaped
with a backslash. -/
def escapedSize (codes : List Char) (s : String) : Nat :=
  s.utf8ByteSize + s.data.countP (fun c => decide (c ∈ codes))

/-- Package `models`, `unescapeMeasurement`: a backslash before a comma or a
space is dropped (the backslash is character 92). -/
def unescapeMeasurement (name : String) : String :=
  strings.ReplaceAll (strings.ReplaceAll name (String.mk [Char.ofNat 92, ',']) ",")
    (String.mk [Char.ofNat 92, ' ']) " "

def insertTag (t : String × String) : List (String × String) → List (String × String)
  | [] => [t]
  | u :: rest => if t.1.data < u.1.data then t :: u :: rest else u :: insertTag t rest

/-- Package `models`, `NewTags`: the tags of the map, sorted by key. -/
def NewTags (tags : List (String × String)) : List (String × String) :=
  tags.foldr insertTag []

/-- The tags the series key of a point keeps (`Tags.HashKey`): a tag whose
value is empty is dropped. -/
def keptTags (tags : List (String × String)) : List (String × String) :=
  (NewTags tags).filter (fun t => decide (t.2 ≠ ""))

/-- Package `models`, `seriesKeySize` of the key `MakeKey` builds: the
measurement with commas and spaces escaped, then for every kept tag a comma,
the key, an equals sign and the value (commas, spaces and equals signs
escaped), then the four bytes of the field separator and the field name. -/
def seriesKeySize (name : String) (tags : List (String × String)) (field : String) : Nat :=
  escapedSize [',', ' '] (unescapeMeasurement name)
    + ((keptTags tags).map (fun t =>
        2 + escapedSize [',', ' ', '='] t.1 + escapedSize [',', ' ', '='] t.2)).sum
    + 4 + field.utf8ByteSize

def MaxKeyLength : Nat := 65535

/-- Package `models`, `CheckTime`: the instant must fit a signed 64-bit count
of nanoseconds since the epoch (years 1677 to 2262). -/
def CheckTime (t : time.Time) : Bool :=
  decide (-9223372036854775806 ≤ t.UnixNano ∧ t.UnixNano ≤ 9223372036854775806)

/-- A point as the library holds it: the measurement and the kept tags of its
series key, its fields and its time. -/
structure Point where
  Measurement : String
  Tags : List (String × String)
  Fields : List (String × Int)
  Time : time.Time
deriving DecidableEq, Repr

/-- Go `client.NewPoint`: a nil point and an error when there is no field,
when the time is neither the zero time nor in range, when a field has no
name, or when the series key with a field exceeds `MaxKeyLength`. -/
def NewPoint (name : String) (tags : List (String × String))
    (fields : List (String × Int)) (t : time.Time) : Option Point × Option GoError :=
  if fields = [] then (none, some (.other "point without fields is unsupported"))
  else if !t.IsZero && !CheckTime t then (none, some (.other "time outside range"))
  else if fields.any (fun f => decide (f.1 = "")) then
    (none, some (.other "all fields must have non-empty names"))
  else if fields.any (fun f => decide (MaxKeyLength < seriesKeySize name tags f.1)) then
    (none, some (.other "max key length exceeded"))
  else (some ⟨unescapeMeasurement name, keptTags tags, fields, t⟩, none)

/-- A batch; an entry of `Points` is `none` where a nil pointer was added. -/
structure BatchPoints where
  Database : String
  Precision : String
  Points : List (Option Point)
deriving DecidableEq, Repr

/-- Go `client.NewBatchPoints`; with precision `"s"` it returns no error. -/
def NewBatchPoints (database precision : String) : BatchPoints × Option GoError :=
  (⟨database, precision, []⟩, none)

def BatchPoints.AddPoint (bp : BatchPoints) (pt : Option Point) : BatchPoints :=
  { bp with Points := bp.Points ++ [pt] }

/-- The handle `c client.Client`, as far as the program uses it: `Write` sends
a batch to a store in state `σ`; it returns an error or nothing and the new
state of the store (`Except.ok`), or panics (`Except.error`). -/
structure Client (σ : Type) where
  Write : BatchPoints → σ → Except String (Option GoError × σ)

/-- A line of the line protocol, as the server receives it for a point. -/
structure Line where
  Measurement : String
  Tags : List (String × String)
  Fields : List (String × Int)
  Timestamp : Option Int
deriving DecidableEq, Repr

/-- Package `models`, `GetPrecisionMultiplier`. -/
def precisionMultiplier (precision : String) : Int :=
  if precision = "u" then 1000
  else if precision = "ms" then 1000000
  else if precision = "s" then 1000000000
  else if precision = "m" then 60000000000
  else if precision = "h" then 3600000000000
  else 1

/-- Package `models`, `PrecisionString`: a point at the zero time is written
without a timestamp; any other time is written in units of the precision (Go
`/` truncates toward zero). -/
def Point.PrecisionString (p : Point) (precision : String) : Line :=
  { Measurement := p.Measurement
    Tags := p.Tags
    Fields := p.Fields
    Timestamp :=
      if p.Time.IsZero then none
      else some (Int.tdiv p.Time.UnixNano (precisionMultiplier precision)) }

end client

/-- The state the process acts on: what it has logged and the store behind
the client. -/
structure St (σ : Type) where
  log : List LogEntry
  store : σ
deriving DecidableEq, Repr

/-- The outcome of a call: it returns, or the goroutine panics and the process
aborts in the state reached. -/
inductive Run (σ α : Type) where
  | ret (a : α) (st : St σ)
  | panic (msg : String) (st : St σ)
deriving DecidableEq, Repr

def St.logged {σ : Type} (st : St σ) (e : LogEntry) : St σ :=
  { st with log := st.log ++ [e] }

/-- Function `check` of `rss.go`: logs a non-nil error, and returns. -/
def check {σ : Type} (e : Option GoError) (st : St σ) : St σ :=
  match e with
  | some err => st.logged (.error err)
  | none => st

/-- The `tags` map literal of `writeEventToInflux`. -/
def eventTags (event : InfluxEvent) : List (String × String) :=
  [("text", event.Text), ("title", event.Title), ("url", event.Url), ("id", event.ID)]

/-- The `fields` map literal of `writeEventToInflux`. -/
def eventFields (event : InfluxEvent) : List (String × Int) :=
  [("timestamp", event.Time.Unix)]

/-- What `client.NewPoint` returns in `writeEventToInflux`: the point, or nil,
and the error. -/
def eventPoint (event : InfluxEvent) : Option client.Point × Option GoError :=
  client.NewPoint event.Measurement (eventTags event) (eventFields event) event.Time.Time

/-- The batch `writeEventToInflux` hands to `c.Write`. -/
def eventBatch (influx : Influx) (event : InfluxEvent) : client.BatchPoints :=
  (client.NewBatchPoints influx.Database "s").1.AddPoint (eventPoint event).1

/-- Function `writeEventToInflux` of `rss.go`. -/
def writeEventToInflux {σ : Type} (c : client.Client σ) (influx : Influx)
    (event : InfluxEvent) (st : St σ) : Run σ (Bool × Option GoError) :=
  let (bp, err) := client.NewBatchPoints influx.Database "s"
  let st := check err st
  let (pt, err) := client.NewPoint event.Measurement (eventTags event) (eventFields event)
    event.Time.Time
  let st := check err st
  let bp := bp.AddPoint pt
  match c.Write bp st.store with
  | .error msg => .panic msg st
  | .ok (err, store) => .ret (true, none) (check err { st with store := store })

/-- Modelled from the spec: the key by which the store tells points apart,
which is not part of the repository.  Section 3 names it: "The tag set
`{text, title, url, id}` together with `Time` forms the dedup key recognized
by the sink".  The `Time` the sink sees is the timestamp of the line, which
is absent for a point at the zero time. -/
def dedupKey (line : client.Line) : List (String × String) × Option Int :=
  (line.Tags, line.Timestamp)

/-- A client that records every line sent to it.  A nil point in the batch
makes `Write` panic when `nilPanics` is set (the point is dereferenced) and
is skipped otherwise. -/
def recordingClient (nilPanics : Bool) : client.Client (List client.Line) :=
  { Write := fun bp store =>
      if nilPanics && bp.Points.any Option.isNone then .error "nil pointer dereference"
      else .ok (none,
        store ++ bp.Points.filterMap
          (fun p => p.map (fun pt => pt.PrecisionString bp.Precision))) }

/-- A client whose every write fails with the given error and stores nothing. -/
def failingClient (e : GoError) : client.Client (List client.Line) :=
  { Write := fun _ store => .ok (some e, store) }

/-- The body of the inner loops of `main` for one event: write it, `check` the
returned error, and log `failed to write` when the result is not `true`. -/
def writeAndReport {σ : Type} (c : client.Client σ) (influx : Influx)
    (influxEvent : InfluxEvent) (st : St σ) : Run σ Unit :=
  match writeEventToInflux c influx influxEvent st with
  | .panic msg st => .panic msg st
  | .ret (res, err) st =>
    let st := check err st
    .ret () (if res != true then st.logged (.errorMsg "failed to write") else st)

/-! ## Timestamps: `eventTime.UnmarshalXML` -/

namespace xml

/-- The decoder as `UnmarshalXML` receives it.  Package `encoding/xml` calls the
method with the decoder bounded to the element (`pushEOF`): the first
`DecodeElement` stores the element's character data, and once the end tag is
consumed every further call fails with `io.EOF` before it stores anything.
`pending` is the character data still to be read; it is `none` after the
first call, and from the start when the element cannot be read. -/
structure Decoder where
  pending : Option String
deriving DecidableEq, Repr

/-- Go `d.DecodeElement(&v, &start)` as the loop uses it: the new value of `v`
and the decoder after the call; the returned error is dropped there. -/
def Decoder.DecodeElement (d : Decoder) (v : String) : String × Decoder :=
  match d.pending with
  | some s => (s, ⟨none⟩)
  | none => (v, d)

end xml

/-- The keys of the map `timeFmts`. -/
def timeFmts : List time.Layout := [.rss, .rfc3339]

/-- The orders in which `range timeFmts` may visit the two keys. -/
def rangeOrders : List (List time.Layout) := [[.rss, .rfc3339], [.rfc3339, .rss]]

/-- The `for k := range timeFmts` loop of `UnmarshalXML`, over the keys in the
order they are visited: the parsed time, or `none` when the loop runs out. -/
def unmarshalLoop (z : time.Zones) :
    List time.Layout → xml.Decoder → String → Option time.Time
  | [], _, _ => none
  | k :: ks, d, v =>
    match time.Parse z k (d.DecodeElement v).1 with
    | none => unmarshalLoop z ks (d.DecodeElement v).2 (d.DecodeElement v).1
    | some parse => some parse

/-- Method `UnmarshalXML` of `eventTime`: the value of the receiver after the
call and the error returned.  `order` is the order in which the map is
ranged over. -/
def eventTime.UnmarshalXML (z : time.Zones) (order : List time.Layout) (e : eventTime)
    (d : xml.Decoder) : eventTime × Option GoError :=
  match unmarshalLoop z order d "" with
  | some parse => (⟨parse⟩, none)
  | none => (e, some .format)

/-- The contract of the timestamp parser in the words of the specification:
the instant of the first layout of the list that parses the string. -/
def firstLayoutThatParses (z : time.Zones) : List time.Layout → String → Option time.Time
  | [], _ => none
  | k :: ks, raw =>
    match time.Parse z k raw with
    | some t => some t
    | none => firstLayoutThatParses z ks raw

/-! ## Fetching and schema detection: `getXML`, `getFeed` -/

namespace http

/-- A response of `http.Get`: its status code and what `ioutil.ReadAll` then
returns for its body (the bytes read, and an error or nothing). -/
structure Response where
  StatusCode : Nat
  Body : String × Option GoError
deriving DecidableEq, Repr

end http

namespace xml

/-- Package `encoding/xml`, as far as `xml.Unmarshal` into the two feed structs
depends on the document: the local name of its first start element (`none`
when the input ends or is malformed before one), and what decoding the
fields of that element leaves in the destination struct, with the error it
returns or nothing. -/
structure Decoding where
  rootName : String → Option String
  atomBody : String → AtomFeed × Option GoError
  rssBody : String → RSSFeed × Option GoError

/-- Go `xml.Unmarshal(data, &atom)`: `AtomFeed` declares `XMLName` with tag
`feed`, so a root element of another name is an error and leaves the
destination as it was. -/
def UnmarshalAtomFeed (x : Decoding) (data : String) (atom : AtomFeed) :
    AtomFeed × Option GoError :=
  match x.rootName data with
  | none => (atom, some (.xmlError "EOF"))
  | some n =>
    if n = "feed" then x.atomBody data
    else (atom, some (.xmlError "expected element type <feed>"))

/-- Go `xml.Unmarshal(data, &rss)`: `RSSFeed` declares `XMLName` with tag `rss`. -/
def UnmarshalRSSFeed (x : Decoding) (data : String) (rss : RSSFeed) :
    RSSFeed × Option GoError :=
  match x.rootName data with
  | none => (rss, some (.xmlError "EOF"))
  | some n =>
    if n = "rss" then x.rssBody data
    else (rss, some (.xmlError "expected element type <rss>"))

end xml

/-- The collaborators of the process: the network, the XML decoder and the
client of the store. -/
structure World (σ : Type) where
  Get : String → Option http.Response × Option GoError
  xml : xml.Decoding
  c : client.Client σ

/-- Function `getXML` of `rss.go`.  After a failed `http.Get` the response is
nil and `resp.Body` dereferences it. -/
def getXML {σ : Type} (w : World σ) (url : String) (st : St σ) :
    Run σ (String × Option GoError) :=
  let (resp, err) := w.Get url
  let st := check err st
  match resp with
  | none => .panic "nil pointer dereference" st
  | some resp =>
    if resp.StatusCode ≠ 200 then
      .ret ("", some (.statusError resp.StatusCode))
        (st.logged (.error (.statusError resp.StatusCode)))
    else
      let (data, err) := resp.Body
      let st := check err st
      .ret (data, none) st

/-- The `length` computed at the end of `getFeed`; `none` is the nil-pointer
dereference of `rss.Channel.Event` on a nil `Channel`. -/
def feedLength (feedType : String) (atom : AtomFeed) (rss : RSSFeed) : Option Nat :=
  let length : Option Nat :=
    if feedType = "RSS" then rss.Channel.map (fun ch => ch.Event.length) else some 0
  match length with
  | none => none
  | some length => if feedType = "Atom" then some atom.Event.length else some length

/-- Function `getFeed` of `rss.go` from the point where `data` is in hand
(lines 135 to 159). -/
def decodeFeed {σ : Type} (w : World σ) (url data : String) (st : St σ) : Run σ Feed :=
  let (atom, err) := xml.UnmarshalAtomFeed w.xml data AtomFeed.zero
  let decoded : Option (String × RSSFeed) :=
    match err with
    | none => some ("Atom", RSSFeed.zero)
    | some _ =>
      let (rss, err) := xml.UnmarshalRSSFeed w.xml data RSSFeed.zero
      match err with
      | none => some ("RSS", rss)
      | some _ => none
  match decoded with
  | none => .panic "xml" st
  | some (feedType, rss) =>
    match feedLength feedType atom rss with
    | none => .panic "nil pointer dereference" st
    | some length =>
      .ret { «Type» := feedType, Atom := atom, RSS := rss }
        (st.logged (.items length feedType url))

/-- Function `getFeed` of `rss.go`; the error `getXML` returns is overwritten
without being looked at. -/
def getFeed {σ : Type} (w : World σ) (url : String) (st : St σ) : Run σ Feed :=
  match getXML w url (st.logged (.info "getting data from feed")) with
  | .panic m st => .panic m st
  | .ret (data, _) st => decodeFeed w url data st

/-! ## The loop of `main` -/

/-- One of the two `for _, event := range ...` loops of `main`, over the
events already built. -/
def writeAll {σ : Type} (c : client.Client σ) (influx : Influx) :
    List InfluxEvent → St σ → Run σ Unit
  | [], st => .ret () st
  | e :: events, st =>
    match writeAndReport c influx e st with
    | .panic msg st => .panic msg st
    | .ret _ st => writeAll c influx events st

/-- The body of `for _, rss := range feeds` in `main`. -/
def processSource {σ : Type} (w : World σ) (influx : Influx) (rss : String) (st : St σ) :
    Run σ Unit :=
  match getFeed w rss st with
  | .panic m st => .panic m st
  | .ret feed st =>
    let afterRSS : Run σ Unit :=
      if feed.«Type» = "RSS" then
        match feed.RSS.Channel with
        | none => .panic "nil pointer dereference" st
        | some ch => writeAll w.c influx (ch.Event.map (rssInfluxEvent rss)) st
      else .ret () st
    match afterRSS with
    | .panic m st => .panic m st
    | .ret _ st =>
      if feed.«Type» = "Atom" then
        writeAll w.c influx (feed.Atom.Event.map (atomInfluxEvent rss)) st
      else .ret () st

/-- One pass of `for _, rss := range feeds`. -/
def rangeFeeds {σ : Type} (w : World σ) (influx : Influx) :
    List String → St σ → Run σ Unit
  | [], st => .ret () st
  | rss :: feeds, st =>
    match processSource w influx rss st with
    | .panic m st => .panic m st
    | .ret _ st => rangeFeeds w influx feeds st

/-- The outer `for` of `main`, cut after `n` passes. -/
def mainLoop {σ : Type} (w : World σ) (influx : Influx) (feeds : List String) :
    Nat → St σ → Run σ Unit
  | 0, st => .ret () st
  | n + 1, st =>
    match rangeFeeds w influx feeds st with
    | .panic m st => .panic m st
    | .ret _ st => mainLoop w influx feeds n st

/-! ## Sample collaborators -/

/-- A decoder that knows three documents: an empty input, an `rss` element
without a channel, and an Atom feed without entries. -/
def sampleDecoding : xml.Decoding :=
  { rootName := fun data =>
      if data = "<rss></rss>" then some "rss"
      else if data = "<feed></feed>" then some "feed"
      else none
    atomBody := fun _ => (AtomFeed.zero, none)
    rssBody := fun _ => (RSSFeed.zero, none) }

/-- A network on which `http://down/` cannot be reached, `http://gone/`
answers 404, and every other URL answers 200 with the given body. -/
def sampleWorld (body : String) : World (List client.Line) :=
  { Get := fun url =>
      if url = "http://down/" then (none, some (.other "dial tcp: connection refused"))
      else if url = "http://gone/" then (some ⟨404, ("not found", none)⟩, none)
      else (some ⟨200, (body, none)⟩, none)
    xml := sampleDecoding
    c := recordingClient true }

def sampleInflux : Influx := ⟨"rss", "localhost", 8086, "", ""⟩

/-- The zero value of `eventTime`: 1 January of year 1, UTC. -/
def eventTime.zero : eventTime := ⟨⟨-62135596800, 0, time.UTC⟩⟩

/-- An event as the Atom branch builds it, from the given source. -/
def sampleEvent (measurement : String) : InfluxEvent :=
  { Title := "A &amp; B"
    Text := "line1<br>line2"
    Url := ""
    Measurement := measurement
    ID := "1"
    Time := ⟨⟨1704067200, 0, time.UTC⟩⟩ }

/-- The Atom entry of the end-to-end example of the specification, its
`updated` element decoded. -/
def specEntry : AtomEvent :=
  { Title := "A & B"
    Content := "line1\nline2"
    Url := ""
    Updated := ⟨⟨1704067200, 0, time.UTC⟩⟩
    ID := "1" }

/-- An RSS item without a `pubDate` element: `UnmarshalXML` is never called
for it and `PubDate` keeps the zero value. -/
def undatedItem : RSSEvent :=
  { Title := "News"
    Text := "body"
    Link := "http://feed/1"
    Guid := "g1"
    PubDate := eventTime.zero
    Updated := "" }

/-- The round trip of the specification: format an instant with a layout and
hand the text to `UnmarshalXML`. -/
def roundTrip (z : time.Zones) (order : List time.Layout) (t : time.Time)
    (layout : time.Layout) : eventTime × Option GoError :=
  eventTime.UnmarshalXML z order eventTime.zero ⟨some (t.Format layout)⟩

/-! ## Theorems -/

theorem escapeChar_no_lt (c : Char) : '<' ∉ html.escapeChar c := by
  unfold html.escapeChar
  split_ifs with h1 h2 h3 h4 h5
  · decide
  · decide
  · decide
  · decide
  · decide
  · simp only [List.mem_singleton]
    exact fun h => h3 h.symm

theorem EscapeString_no_lt (s : String) : '<' ∉ (html.EscapeString s).data := by
  simp only [html.EscapeString, List.mem_flatMap, not_exists, not_and]
  exact fun c _ => escapeChar_no_lt c

/-- C1: for every Atom entry the event built in `main` has `Title` and `ID`
equal to the HTML-entity escape of the entry's title and id, the title holds
no literal `<`, and the title `<script>` becomes `&lt;script&gt;`. -/
theorem C1_atom_title_id_escaped (rss : String) (event : AtomEvent) :
    (atomInfluxEvent rss event).Title = html.EscapeString event.Title
    ∧ (atomInfluxEvent rss event).ID = html.EscapeString event.ID
    ∧ '<' ∉ (atomInfluxEvent rss event).Title.data
    ∧ (atomInfluxEvent rss { event with Title := "<script>" }).Title = "&lt;script&gt;" := by
  refine ⟨rfl, rfl, EscapeString_no_lt _, ?_⟩
  simp only [atomInfluxEvent]
  decide

theorem replaceScan_no_newline (s : List Char) (skip : Nat) :
    '\n' ∉ strings.replaceScan ['\n'] ['<', 'b', 'r', '>'] skip s := by
  induction s generalizing skip with
  | nil => cases skip <;> simp [strings.replaceScan]
  | cons c s ih =>
    cases skip with
    | succ k => simpa [strings.replaceScan] using ih k
    | zero =>
      by_cases hc : c = '\n'
      · subst hc
        have h0 := ih 0
        simp only [strings.replaceScan, strings.startsWith, beq_self_eq_true, Bool.and_self,
          if_true, List.length_singleton, List.mem_append, not_or]
        exact ⟨by decide, h0⟩
      · have hb : ('\n' == c) = false := by
          simp only [beq_eq_false_iff_ne, ne_eq]
          exact fun h => hc h.symm
        have h0 := ih 0
        simp only [strings.replaceScan, strings.startsWith, hb, Bool.false_and,
          Bool.false_eq_true, if_false, List.mem_cons, not_or]
        exact ⟨fun h => hc h.symm, h0⟩

/-- C2: for every Atom entry the event's `Text` is the HTML-entity escape of
the content with every newline then replaced by `<br>`; it holds no newline,
and the content `line1\nline2` becomes `line1<br>line2`. -/
theorem C2_atom_text_escaped_folded (rss : String) (event : AtomEvent) :
    (atomInfluxEvent rss event).Text
        = strings.ReplaceAll (html.EscapeString event.Content) "\n" "<br>"
    ∧ '\n' ∉ (atomInfluxEvent rss event).Text.data
    ∧ (atomInfluxEvent rss { event with Content := "line1\nline2" }).Text
        = "line1<br>line2" := by
  refine ⟨rfl, ?_, ?_⟩
  · have h := replaceScan_no_newline (html.EscapeString event.Content).data 0
    simpa [atomInfluxEvent, strings.ReplaceAll] using h
  · simp only [atomInfluxEvent]
    decide

/-- C3: for every RSS item the event built in `main` carries the item's title
and description unchanged, has `Url` equal to the guid, `Time` equal to the
parsed pubDate and `Measurement` equal to the source URL. -/
theorem C3_rss_item_passes_through (rss : String) (event : RSSEvent) :
    (rssInfluxEvent rss event).Title = event.Title
    ∧ (rssInfluxEvent rss event).Text = event.Text
    ∧ (rssInfluxEvent rss event).Url = event.Guid
    ∧ (rssInfluxEvent rss event).Time = event.PubDate
    ∧ (rssInfluxEvent rss event).Measurement = rss :=
  ⟨rfl, rfl, rfl, rfl, rfl⟩

/-! ### Schema detection -/

theorem decodeFeed_atom {σ : Type} (w : World σ) (url data : String) (st : St σ)
    (atom : AtomFeed)
    (h : xml.UnmarshalAtomFeed w.xml data AtomFeed.zero = (atom, none)) :
    decodeFeed w url data st
      = .ret { «Type» := "Atom", Atom := atom, RSS := RSSFeed.zero }
          (st.logged (.items atom.Event.length "Atom" url)) := by
  simp [decodeFeed, h, feedLength]

theorem decodeFeed_rss {σ : Type} (w : World σ) (url data : String) (st : St σ)
    (atom : AtomFeed) (e : GoError) (rss : RSSFeed) (ch : RSSChannel)
    (hA : xml.UnmarshalAtomFeed w.xml data AtomFeed.zero = (atom, some e))
    (hR : xml.UnmarshalRSSFeed w.xml data RSSFeed.zero = (rss, none))
    (hch : rss.Channel = some ch) :
    decodeFeed w url data st
      = .ret { «Type» := "RSS", Atom := atom, RSS := rss }
          (st.logged (.items ch.Event.length "RSS" url)) := by
  simp [decodeFeed, hA, hR, feedLength, hch]

theorem decodeFeed_neither {σ : Type} (w : World σ) (url data : String) (st : St σ)
    (atom : AtomFeed) (e e2 : GoError) (rss : RSSFeed)
    (hA : xml.UnmarshalAtomFeed w.xml data AtomFeed.zero = (atom, some e))
    (hR : xml.UnmarshalRSSFeed w.xml data RSSFeed.zero = (rss, some e2)) :
    decodeFeed w url data st = .panic "xml" st := by
  simp [decodeFeed, hA, hR]

theorem UnmarshalAtomFeed_root_rss (x : xml.Decoding) (data : String) (atom : AtomFeed)
    (hroot : x.rootName data = some "rss") :
    xml.UnmarshalAtomFeed x data atom
      = (atom, some (.xmlError "expected element type <feed>")) := by
  simp [xml.UnmarshalAtomFeed, hroot]

/-- C6 (the code at `<rss></rss>`): when the root element is `rss` and the RSS
decode succeeds leaving `Channel` nil, the Atom decode fails, the RSS decode
succeeds, and `getFeed` returns no `Feed`: it panics on `rss.Channel.Event`. -/
theorem C6_rss_without_channel_panics {σ : Type} (w : World σ) (url data : String)
    (st : St σ) (rss : RSSFeed)
    (hroot : w.xml.rootName data = some "rss")
    (hbody : w.xml.rssBody data = (rss, none))
    (hnil : rss.Channel = none) :
    (xml.UnmarshalAtomFeed w.xml data AtomFeed.zero).2 ≠ none
    ∧ xml.UnmarshalRSSFeed w.xml data RSSFeed.zero = (rss, none)
    ∧ decodeFeed w url data st = .panic "nil pointer dereference" st := by
  have hA := UnmarshalAtomFeed_root_rss w.xml data AtomFeed.zero hroot
  have hR : xml.UnmarshalRSSFeed w.xml data RSSFeed.zero = (rss, none) := by
    simp [xml.UnmarshalRSSFeed, hroot, hbody]
  refine ⟨by simp [hA], hR, ?_⟩
  simp [decodeFeed, hA, hR, feedLength, hnil]

/-- The document `<rss></rss>` under the sample decoder: `getFeed` panics. -/
theorem C6_rss_without_channel_panics_witness :
    (sampleWorld "<rss></rss>").xml.rootName "<rss></rss>" = some "rss"
    ∧ decodeFeed (sampleWorld "<rss></rss>") "http://feed/" "<rss></rss>" ⟨[], []⟩
        = .panic "nil pointer dereference" ⟨[], []⟩ :=
  ⟨by decide,
   (C6_rss_without_channel_panics (sampleWorld "<rss></rss>") "http://feed/" "<rss></rss>"
      ⟨[], []⟩ RSSFeed.zero (by decide) rfl rfl).2.2⟩

/-! ### The sink -/

/-- C7 (the code under a failing store): whatever error the batch write
returns, `writeEventToInflux` returns `true, nil`; the error is only logged by
`check` (after the error of `client.NewPoint`, if there was one), and the
caller's `failed to write` branch is not taken. -/
theorem C7_write_error_not_returned (e : GoError) (influx : Influx) (event : InfluxEvent)
    (st : St (List client.Line)) :
    writeEventToInflux (failingClient e) influx event st
      = .ret (true, none)
          { log := (check (eventPoint event).2 st).log ++ [.error e], store := st.store }
    ∧ writeAndReport (failingClient e) influx event st
      = .ret ()
          { log := (check (eventPoint event).2 st).log ++ [.error e], store := st.store } := by
  have hs : (check (eventPoint event).2 st).store = st.store := by
    cases (eventPoint event).2 <;> rfl
  have h1 : writeEventToInflux (failingClient e) influx event st
      = .ret (true, none)
          { log := (check (eventPoint event).2 st).log ++ [.error e], store := st.store } := by
    simp only [writeEventToInflux, failingClient, client.NewBatchPoints, check, St.logged,
      eventPoint] at hs ⊢
    cases h : (client.NewPoint event.Measurement (eventTags event) (eventFields event)
      event.Time.Time).2 <;> rfl
  refine ⟨h1, ?_⟩
  simp only [writeAndReport, h1, check]
  rfl

theorem writeEventToInflux_result {σ : Type} (c : client.Client σ) (influx : Influx)
    (event : InfluxEvent) (st : St σ) (st1 : St σ) (r : Bool × Option GoError)
    (h : writeEventToInflux c influx event st = .ret r st1) : r = (true, none) := by
  simp only [writeEventToInflux] at h
  split at h
  · cases h
  · simp only [Run.ret.injEq] at h
    exact h.1.symm

/-! ### Fetch failures -/

theorem getFeed_unreachable {σ : Type} (w : World σ) (url : String) (st : St σ)
    (h : (w.Get url).1 = none) :
    ∃ st1, getFeed w url st = .panic "nil pointer dereference" st1
      ∧ st1.store = st.store := by
  unfold getFeed getXML
  rcases hg : w.Get url with ⟨resp, err⟩
  rw [hg] at h
  simp only at h
  subst h
  exact ⟨_, rfl, by cases err <;> rfl⟩

theorem getFeed_bad_status {σ : Type} (w : World σ) (url : String) (st : St σ)
    (resp : http.Response) (h : (w.Get url).1 = some resp) (hs : resp.StatusCode ≠ 200)
    (hempty : w.xml.rootName "" = none) :
    ∃ st1, getFeed w url st = .panic "xml" st1 ∧ st1.store = st.store := by
  unfold getFeed getXML
  rcases hg : w.Get url with ⟨r, err⟩
  rw [hg] at h
  simp only at h
  subst h
  simp only [hs, if_true, ne_eq, not_false_eq_true]
  refine ⟨(check err (st.logged (.info "getting data from feed"))).logged
    (.error (.statusError resp.StatusCode)), ?_, ?_⟩
  · simp [decodeFeed, xml.UnmarshalAtomFeed, xml.UnmarshalRSSFeed, hempty]
  · cases err <;> rfl

/-- C8 (the code at a failed fetch): when `http.Get` returns no response, or a
response whose status is not 200 (the empty document then decodes as neither
dialect), the pass over the sources panics at that source: nothing is written
for it, and the sources after it are not processed. -/
theorem C8_failed_fetch_aborts_pass {σ : Type} (w : World σ) (influx : Influx)
    (url : String) (feeds : List String) (st : St σ)
    (h : (w.Get url).1 = none
      ∨ ∃ resp, (w.Get url).1 = some resp ∧ resp.StatusCode ≠ 200
          ∧ w.xml.rootName "" = none) :
    ∃ msg st1, rangeFeeds w influx (url :: feeds) st = .panic msg st1
      ∧ st1.store = st.store := by
  rcases h with h | ⟨resp, h, hs, hempty⟩
  · obtain ⟨st1, hf, hst⟩ := getFeed_unreachable w url st h
    exact ⟨"nil pointer dereference", st1, by simp [rangeFeeds, processSource, hf], hst⟩
  · obtain ⟨st1, hf, hst⟩ := getFeed_bad_status w url st resp h hs hempty
    exact ⟨"xml", st1, by simp [rangeFeeds, processSource, hf], hst⟩

/-- A pass over a source answering 404 followed by a healthy one aborts at the
first and writes nothing. -/
theorem C8_failed_fetch_aborts_pass_witness :
    ((sampleWorld "<feed></feed>").Get "http://gone/").1 = some ⟨404, ("not found", none)⟩
    ∧ ∃ msg st1,
        rangeFeeds (sampleWorld "<feed></feed>") sampleInflux
          ["http://gone/", "http://feed/"] ⟨[], []⟩ = .panic msg st1
        ∧ st1.store = [] :=
  ⟨by decide,
   C8_failed_fetch_aborts_pass (sampleWorld "<feed></feed>") sampleInflux "http://gone/"
     ["http://feed/"] ⟨[], []⟩
     (Or.inr ⟨⟨404, ("not found", none)⟩, by decide, by decide, by decide⟩)⟩

/-! ### Calendar arithmetic and the chunk parsers -/

open time

set_option maxRecDepth 100000 in
theorem daysBeforeYear_bounds :
    ∀ y, y < 402 → 146097 * y ≤ 400 * daysBeforeYear y + 288
      ∧ 400 * daysBeforeYear y ≤ 146097 * y + 591 := by
  decide

theorem yearOfCycle_spec (r : Nat) (hr : r < 146097) :
    daysBeforeYear (yearOfCycle r) ≤ r ∧ r < daysBeforeYear (yearOfCycle r + 1)
      ∧ yearOfCycle r < 400 := by
  have hg : r * 400 / 146097 ≤ 399 := by omega
  obtain ⟨g, hgdef⟩ : ∃ g, r * 400 / 146097 = g := ⟨_, rfl⟩
  have h0 : daysBeforeYear 0 = 0 := by decide
  have h400 : daysBeforeYear 400 = 146097 := by decide
  have b0 := daysBeforeYear_bounds (g - 1) (by omega)
  have b1 := daysBeforeYear_bounds g (by omega)
  have b2 := daysBeforeYear_bounds (g + 1) (by omega)
  have b3 := daysBeforeYear_bounds (g + 2) (by omega)
  rw [hgdef] at hg
  unfold yearOfCycle
  simp only [hgdef]
  split_ifs with c1 c2
  · have hg1 : 1 ≤ g := by
      rcases Nat.eq_zero_or_pos g with h | h
      · subst h; omega
      · exact h
    have e : g - 1 + 1 = g := by omega
    rw [e]
    refine ⟨?_, c1, by omega⟩
    omega
  · have hlt : g + 1 < 400 := by
      rcases Nat.lt_or_ge (g + 1) 400 with h | h
      · exact h
      · have : g + 1 = 400 := by omega
        rw [this, h400] at c2
        omega
    refine ⟨c2, ?_, hlt⟩
    show r < daysBeforeYear (g + 2)
    omega
  · exact ⟨by omega, by omega, by omega⟩

theorem isLeap_iff (y : Nat) :
    isLeap y = true ↔ y % 4 = 0 ∧ (y % 100 ≠ 0 ∨ y % 400 = 0) := by
  simp [isLeap]

theorem isLeap_cycle (q y : Nat) : isLeap (400 * q + y) = isLeap y := by
  have h4 : (400 * q + y) % 4 = y % 4 := by omega
  have h100 : (400 * q + y) % 100 = y % 100 := by omega
  have h400 : (400 * q + y) % 400 = y % 400 := by omega
  simp only [isLeap, h4, h100, h400]

theorem daysBeforeYear_cycle (q y : Nat) :
    daysBeforeYear (400 * q + y) = 146097 * q + daysBeforeYear y := by
  simp only [daysBeforeYear]
  omega

theorem daysBeforeYear_succ (y : Nat) :
    daysBeforeYear (y + 1) = daysBeforeYear y + 365 + (if isLeap y = true then 1 else 0) := by
  have e4 : (y + 1 + 3) / 4 = (y + 3) / 4 + (if y % 4 = 0 then 1 else 0) := by
    split_ifs <;> omega
  have e100 : (y + 1 + 99) / 100 = (y + 99) / 100 + (if y % 100 = 0 then 1 else 0) := by
    split_ifs <;> omega
  have e400 : (y + 1 + 399) / 400 = (y + 399) / 400 + (if y % 400 = 0 then 1 else 0) := by
    split_ifs <;> omega
  have m1 : y % 400 = 0 → y % 100 = 0 := by omega
  have m2 : y % 100 = 0 → y % 4 = 0 := by omega
  have l1 : (y + 99) / 100 ≤ (y + 3) / 4 := by omega
  simp only [daysBeforeYear, e4, e100, e400, isLeap_iff]
  by_cases h4 : y % 4 = 0 <;> by_cases h100 : y % 100 = 0 <;> by_cases h400 : y % 400 = 0 <;>
    simp only [h4, h100, h400, if_true, if_false, ne_eq, not_true_eq_false, not_false_eq_true,
      or_true, or_false, and_true, and_false, true_and, false_and, or_self] <;>
    omega

theorem monthDay_of_day (day m : Nat) (hm : day / 31 = m) (h : day < 365) :
    ∃ k d, (if daysBefore (m + 1) ≤ day then (m + 2, day - daysBefore (m + 1) + 1)
        else (m + 1, day - daysBefore m + 1)) = (k + 1, d + 1)
      ∧ k < 12 ∧ d < daysBefore (k + 1) - daysBefore k ∧ daysBefore k + d = day
      ∧ (k = 0 → day < 31) ∧ (k = 1 → 31 ≤ day ∧ day < 59) ∧ (2 ≤ k → 59 ≤ day) := by
  have hm11 : m ≤ 11 := by omega
  interval_cases m <;> simp only [Nat.reduceAdd] <;> split_ifs with hc <;>
    simp only [daysBefore] at hc ⊢ <;>
    exact ⟨_, _, rfl, by omega, by simp only [daysBefore]; omega,
      by simp only [daysBefore]; omega, by omega, by omega, by omega⟩

theorem monthDay_spec (leap : Bool) (yday : Nat)
    (h : yday < 365 + (if leap = true then 1 else 0)) :
    ∃ k d, monthDay leap yday = (k + 1, d + 1) ∧ k < 12
      ∧ d + 1 ≤ (if k + 1 = 2 ∧ leap = true then 29 else daysBefore (k + 1) - daysBefore k)
      ∧ daysBefore k + (if leap = true ∧ 3 ≤ k + 1 then 1 else 0) + d = yday := by
  unfold monthDay
  cases leap with
  | false =>
    simp only [Bool.false_eq_true, false_and, if_false] at h ⊢
    obtain ⟨k, d, he, hk, hd, hs, -⟩ := monthDay_of_day yday (yday / 31) rfl (by omega)
    refine ⟨k, d, he, hk, ?_, by omega⟩
    have : ¬ (k + 1 = 2 ∧ False) := by simp
    rw [if_neg this]
    omega
  | true =>
    simp only [true_and, if_true, and_true] at h ⊢
    by_cases h59 : yday = 59
    · subst h59
      exact ⟨1, 28, by simp, by omega, by simp, by simp [daysBefore]⟩
    · rw [if_neg h59]
      by_cases hgt : 59 < yday
      · simp only [hgt, if_true]
        obtain ⟨k, d, he, hk, hd, hs, h0, h1, h2⟩ :=
          monthDay_of_day (yday - 1) ((yday - 1) / 31) rfl (by omega)
        have hk2 : 2 ≤ k := by
          rcases Nat.lt_or_ge k 2 with hlt | hge
          · interval_cases k
            · have := h0 rfl; omega
            · have := h1 rfl; omega
          · exact hge
        refine ⟨k, d, he, hk, ?_, ?_⟩
        · have : ¬ k + 1 = 2 := by omega
          rw [if_neg this]; omega
        · have : 3 ≤ k + 1 := by omega
          rw [if_pos this]; omega
      · simp only [hgt, if_false]
        obtain ⟨k, d, he, hk, hd, hs, h0, h1, h2⟩ :=
          monthDay_of_day yday (yday / 31) rfl (by omega)
        have hk2 : k < 2 := by
          rcases Nat.lt_or_ge k 2 with hlt | hge
          · exact hlt
          · have := h2 hge; omega
        refine ⟨k, d, he, hk, ?_, ?_⟩
        · interval_cases k
          · simp only [daysBefore] at hd ⊢; simp; omega
          · simp only [daysBefore] at hd ⊢; simp; omega
        · have : ¬ 3 ≤ k + 1 := by omega
          rw [if_neg this]; omega


theorem civil_spec (u : Int) (hlo : -62167219200 ≤ u) (hhi : u ≤ 253402300799) :
    ∃ Y k d : Nat, (civil u).year = (Y : Int) ∧ Y < 10000
      ∧ (civil u).month = k + 1 ∧ k < 12
      ∧ (civil u).day = d + 1 ∧ d + 1 ≤ daysIn (k + 1) Y
      ∧ (civil u).hour < 24 ∧ (civil u).min < 60 ∧ (civil u).sec < 60
      ∧ (civil u).weekday < 7
      ∧ Date Y (k + 1) (d + 1) (civil u).hour (civil u).min (civil u).sec 0
          = ⟨u, 0, UTC⟩ := by
  obtain ⟨secs, hsecs⟩ : ∃ n : Nat, u % 86400 = (n : Int) := ⟨(u % 86400).toNat, by omega⟩
  obtain ⟨a, ha⟩ : ∃ n : Nat, u / 86400 + 719528 = (n : Int) :=
    ⟨(u / 86400 + 719528).toNat, by omega⟩
  have hsecs_lt : secs < 86400 := by omega
  have ha_lt : a < 3652425 := by omega
  have hq : ((a : Int) / 146097) = ((a / 146097 : Nat) : Int) := by norm_cast
  have hr : ((a : Int) % 146097).toNat = a % 146097 := by
    have : ((a : Int) % 146097) = ((a % 146097 : Nat) : Int) := by norm_cast
    rw [this]; rfl
  have hrlt : a % 146097 < 146097 := Nat.mod_lt _ (by decide)
  obtain ⟨hy1, hy2, hy3⟩ := yearOfCycle_spec (a % 146097) hrlt
  obtain ⟨y, hy⟩ : ∃ y, yearOfCycle (a % 146097) = y := ⟨_, rfl⟩
  rw [hy] at hy1 hy2 hy3
  have hsucc := daysBeforeYear_succ y
  obtain ⟨k, d, hmd, hk, hd, hsum⟩ := monthDay_spec (isLeap y) (a % 146097 - daysBeforeYear y)
    (by omega)
  have hyear : (civil u).year = ((400 * (a / 146097) + y : Nat) : Int) := by
    simp only [civil, ha, hq, hr, hy]
    push_cast
    ring
  have hmonth : (civil u).month = k + 1 := by
    simp only [civil, ha, hr, hy, hmd]
  have hday : (civil u).day = d + 1 := by
    simp only [civil, ha, hr, hy, hmd]
  have hhour : (civil u).hour = secs / 3600 := by
    simp only [civil, hsecs]; rfl
  have hmin : (civil u).min = secs % 3600 / 60 := by
    simp only [civil, hsecs]; rfl
  have hsec : (civil u).sec = secs % 60 := by
    simp only [civil, hsecs]; rfl
  have hwd : (civil u).weekday = ((u / 86400 + 4) % 7).toNat := by
    simp only [civil]
  refine ⟨400 * (a / 146097) + y, k, d, hyear, by omega, hmonth, hk, hday, ?_,
    by omega, by omega, by omega, by omega, ?_⟩
  · simp only [daysIn, isLeap_cycle]
    exact hd
  · simp only [Date, isLeap_cycle, daysBeforeYear_cycle, hhour, hmin, hsec,
      Nat.add_sub_cancel]
    have hsec : ∀ a b : Int, a = b → (⟨a, 0, UTC⟩ : Time) = ⟨b, 0, UTC⟩ := by
      intro a b hab; rw [hab]
    apply hsec
    have hsum2 : daysBefore k + (if isLeap y = true ∧ 3 ≤ k + 1 then 1 else 0) + d
        = a % 146097 - daysBeforeYear y := hsum
    obtain ⟨w, hw⟩ : ∃ w, (if isLeap y = true ∧ 3 ≤ k + 1 then 1 else 0) = w := ⟨_, rfl⟩
    rw [hw] at hsum2 ⊢
    push_cast
    omega

theorem digitChar_spec (k : Nat) (h : k < 10) :
    isDigit (Nat.digitChar k) = true ∧ digitVal (Nat.digitChar k) = k
      ∧ Nat.digitChar k ≠ ' ' := by
  interval_cases k <;> decide

theorem appendInt_two (n : Nat) (h : n < 100) :
    appendInt (n : Int) 2 = [Nat.digitChar (n / 10), Nat.digitChar (n % 10)] := by
  have hneg : ¬ ((n : Int) < 0) := by omega
  simp [appendInt, h, hneg]

theorem appendInt_four (n : Nat) (h : n < 10000) :
    appendInt (n : Int) 4 = [Nat.digitChar (n / 1000), Nat.digitChar (n / 100 % 10),
      Nat.digitChar (n / 10 % 10), Nat.digitChar (n % 10)] := by
  have hneg : ¬ ((n : Int) < 0) := by omega
  simp [appendInt, h, hneg]

theorem getnum_pad2 (n : Nat) (h : n < 100) (fixed : Bool) (rest : List Char) :
    getnum (Nat.digitChar (n / 10) :: Nat.digitChar (n % 10) :: rest) fixed
      = some (n, rest) := by
  obtain ⟨a1, a2, -⟩ := digitChar_spec (n / 10) (by omega)
  obtain ⟨b1, b2, -⟩ := digitChar_spec (n % 10) (by omega)
  simp only [getnum, a1, b1, a2, b2, if_true]
  congr 2
  omega

theorem longYear_pad4 (n : Nat) (h : n < 10000) (rest : List Char) :
    longYear (Nat.digitChar (n / 1000) :: Nat.digitChar (n / 100 % 10)
      :: Nat.digitChar (n / 10 % 10) :: Nat.digitChar (n % 10) :: rest) = some (n, rest) := by
  obtain ⟨a1, a2, -⟩ := digitChar_spec (n / 1000) (by omega)
  obtain ⟨b1, b2, -⟩ := digitChar_spec (n / 100 % 10) (by omega)
  obtain ⟨c1, c2, -⟩ := digitChar_spec (n / 10 % 10) (by omega)
  obtain ⟨d1, d2, -⟩ := digitChar_spec (n % 10) (by omega)
  simp only [longYear, a1, b1, c1, d1, a2, b2, c2, d2, Bool.and_self, if_true]
  congr 2
  omega

theorem skip_char (c : Char) (hc : c ≠ ' ') (rest : List Char) :
    skip (c :: rest) [c] = some rest := by
  simp [skip, skipFrom, hc]

theorem cutspace_cons (c : Char) (hc : c ≠ ' ') (rest : List Char) :
    cutspace (c :: rest) = c :: rest := by
  simp [cutspace, hc]

theorem skip_space (c : Char) (hc : c ≠ ' ') (rest : List Char) :
    skip (' ' :: c :: rest) [' '] = some (c :: rest) := by
  simp [skip, skipFrom, cutspace, hc]

theorem lookup_day (w : Nat) (h : w < 7) (rest : List Char) :
    lookup shortDayNames (shortDayNames.getD w [] ++ rest) = some (w, rest) := by
  interval_cases w <;>
    simp [lookup, lookupFrom, shortDayNames, matchName, matchByte]

theorem lookup_month (k : Nat) (h : k < 12) (rest : List Char) :
    lookup shortMonthNames (shortMonthNames.getD k [] ++ rest) = some (k, rest) := by
  interval_cases k <;>
    simp [lookup, lookupFrom, shortMonthNames, matchName, matchByte]

theorem month_head (k : Nat) (h : k < 12) :
    ∃ c r, shortMonthNames.getD k [] = c :: r ∧ c ≠ ' ' := by
  interval_cases k <;> exact ⟨_, _, rfl, by decide⟩

/-- The day chunk of the RSS layout reads back what `Format` writes for a day
of the month. -/
theorem rssDay_format (w : Nat) (hw : w < 7) (d : Nat) (hd1 : 1 ≤ d) (hd : d ≤ 31)
    (rest : List Char) :
    rssDay (shortDayNames.getD w [] ++ [',', ' ']
      ++ (if d < 10 then [' '] else []) ++ appendInt (d : Int) 0 ++ ' ' :: rest)
      = some (d, ' ' :: rest) := by
  have h1 : ∀ r : List Char, shortDayNames.getD w [] ++ [',', ' '] ++ r
      = shortDayNames.getD w [] ++ (',' :: ' ' :: r) := by
    intro r; simp
  rw [List.append_assoc, List.append_assoc, h1, rssDay, lookup_day w hw]
  interval_cases d <;> rfl

theorem matchByte_digit (c h : Char) (hc : isDigit c = true) (hh : 65 ≤ h.toNat) :
    matchByte c h = false := by
  simp only [isDigit, decide_eq_true_eq] at hc
  have hne : c ≠ h := by
    intro he
    subst he
    omega
  have hlt : (c.toNat ||| 32) < 97 := by
    obtain ⟨h1, h2⟩ := hc
    generalize c.toNat = n at h1 h2
    interval_cases n <;> decide
  simp only [matchByte, hne, if_false, decide_eq_false_iff_not, not_and, not_le]
  intro _ h97
  omega

theorem lookup_day_digit (c : Char) (rest : List Char) (hc : isDigit c = true) :
    lookup shortDayNames (c :: rest) = none := by
  have hm : ∀ h : Char, 65 ≤ h.toNat → ∀ a b : List Char,
      matchName (c :: a) (h :: b) = false := by
    intro h hh a b
    simp [matchName, matchByte_digit c h hc hh]
  simp [lookup, lookupFrom, shortDayNames, List.take_succ_cons, hm]

theorem parseRSS_digit (z : Zones) (c : Char) (rest : List Char) (hc : isDigit c = true) :
    parseRSS z (c :: rest) = none := by
  simp [parseRSS, rssDate, rssDay, lookup_day_digit c rest hc]

theorem parseRFC3339_not_digit (z : Zones) (c : Char) (rest : List Char)
    (hc : isDigit c = false) :
    parseRFC3339 z (c :: rest) = none := by
  have : longYear (c :: rest) = none := by
    unfold longYear
    split
    · rename_i a b c2 d r heq
      simp only [List.cons.injEq] at heq
      obtain ⟨rfl, -⟩ := heq
      simp [hc]
    · rfl
  simp [parseRFC3339, isoDate, this]

theorem parse_disjoint (z : Zones) (v : String) (t : Time)
    (h : Parse z .rss v = some t) : Parse z .rfc3339 v = none := by
  simp only [Parse] at h ⊢
  cases hv : v.data with
  | nil => rw [hv] at h; simp [parseRSS, rssDate, rssDay, lookup, lookupFrom, shortDayNames] at h
  | cons c rest =>
    rw [hv] at h
    cases hd : isDigit c with
    | true => rw [parseRSS_digit z c rest hd] at h; cases h
    | false => exact parseRFC3339_not_digit z c rest hd


theorem daysIn_le (m y : Nat) : daysIn m y ≤ 31 := by
  unfold daysIn
  split_ifs
  · omega
  · by_cases hm : m ≤ 13
    · interval_cases m <;> simp [daysBefore]
    · have h1 : daysBefore m = 365 := by
        unfold daysBefore
        split <;> omega
      have h2 : daysBefore (m - 1) = 365 := by
        unfold daysBefore
        split <;> omega
      omega

theorem clock_format (h mi s : Nat) (hh : h < 24) (hmi : mi < 60) (hs : s < 60)
    (c : Char) (rest : List Char)
    (hf : fraction (c :: rest) = (0, c :: rest)) :
    clock (appendInt (h : Int) 2 ++ [':'] ++ appendInt (mi : Int) 2 ++ [':']
      ++ appendInt (s : Int) 2 ++ c :: rest) = some ((h, mi, s, 0), c :: rest) := by
  rw [appendInt_two h (by omega), appendInt_two mi (by omega), appendInt_two s (by omega)]
  simp only [List.cons_append, List.nil_append, List.append_assoc, clock, minSec,
    getnum_pad2 h (by omega), getnum_pad2 mi (by omega), getnum_pad2 s (by omega),
    skip_char ':' (by decide), hf]
  simp [Nat.not_le.mpr hh, Nat.not_le.mpr hmi, Nat.not_le.mpr hs]

/-! ### Format, then Parse -/

theorem fraction_other (c : Char) (rest : List Char) (h1 : c ≠ '.') (h2 : c ≠ ',') :
    fraction (c :: rest) = (0, c :: rest) := by
  cases rest with
  | nil => rfl
  | cons d r => simp [fraction, h1, h2]

theorem skip_space_cut (rest : List Char) :
    skip (' ' :: rest) [' '] = some (cutspace rest) := by
  simp [skip, skipFrom, cutspace]

theorem formatOffset_colon (k : Int) (h1 : -1500 < k) (h2 : k < 1500) :
    formatOffset (60 * k) true = (if k < 0 then '-' else '+') ::
      [Nat.digitChar (k.natAbs / 60 / 10), Nat.digitChar (k.natAbs / 60 % 10), ':',
       Nat.digitChar (k.natAbs % 60 / 10), Nat.digitChar (k.natAbs % 60 % 10)] := by
  have hk : Int.tdiv (60 * k) 60 = k := Int.mul_tdiv_cancel_left k (by decide)
  simp only [formatOffset, hk]
  rw [appendInt_two _ (by omega), appendInt_two _ (by omega)]
  split_ifs <;> rfl

theorem colonTZ_offset (k : Int) (h1 : -1500 < k) (h2 : k < 1500) :
    colonTZ ((if k < 0 then '-' else '+') ::
      [Nat.digitChar (k.natAbs / 60 / 10), Nat.digitChar (k.natAbs / 60 % 10), ':',
       Nat.digitChar (k.natAbs % 60 / 10), Nat.digitChar (k.natAbs % 60 % 10)])
      = some (some (60 * k), []) := by
  have g1 := getnum_pad2 (k.natAbs / 60) (by omega) true []
  have g2 := getnum_pad2 (k.natAbs % 60) (by omega) true []
  have hr : ¬ (k.natAbs / 60 > 24 ∨ k.natAbs % 60 > 60) := by omega
  by_cases hneg : k < 0
  · simp only [hneg, if_true, colonTZ, g1, g2, hr, if_false]
    simp only [show ¬ ('-' = 'Z') by decide, show ¬ ('-' = '+') by decide, if_false, if_true]
    congr 3
    omega
  · simp only [hneg, if_false, colonTZ, g1, g2, hr]
    simp only [show ¬ ('+' = 'Z') by decide, if_false, if_true]
    congr 3
    omega

/-- The chunks of the RFC3339 layout read back the date and clock `Format`
writes for a count of seconds in the years 0 to 9999. -/
theorem parseRFC3339_chunks (z : Zones) (u : Int) (hlo : -62167219200 ≤ u)
    (hhi : u ≤ 253402300799) (c : Char) (rest : List Char) (hc1 : c ≠ '.') (hc2 : c ≠ ',')
    (zone : Option Int) (hz : colonTZ (c :: rest) = some (zone, [])) :
    parseRFC3339 z (appendInt (civil u).year 4 ++ ['-'] ++ appendInt (civil u).month 2
        ++ ['-'] ++ appendInt (civil u).day 2 ++ ['T'] ++ formatClock (civil u) ++ c :: rest)
      = zone.elim (some ⟨u, 0, UTC⟩)
          (fun off => some ⟨u - off, 0, offsetLocation z (u - off) off⟩) := by
  obtain ⟨Y, k, d, hy, hY, hm, hk, hd, hdin, hh, hmi, hs, hw, hdate⟩ := civil_spec u hlo hhi
  have hd31 := daysIn_le (k + 1) Y
  simp only [formatClock, hy, hm, hd]
  rw [appendInt_four Y hY, appendInt_two (k + 1) (by omega), appendInt_two (d + 1) (by omega)]
  have hclock := clock_format (civil u).hour (civil u).min (civil u).sec hh hmi hs c rest
    (fraction_other c rest hc1 hc2)
  simp only [List.cons_append, List.nil_append, List.append_assoc, parseRFC3339, isoDate,
    longYear_pad4 Y hY, getnum_pad2 (k + 1) (by omega), getnum_pad2 (d + 1) (by omega),
    skip_char '-' (by decide), skip_char 'T' (by decide)] at hclock ⊢
  have hk0 : ¬ (k + 1 = 0 ∨ 12 < k + 1) := by omega
  simp only [hk0, if_false, skip_char 'T' (by decide), hclock, hz, finish]
  have hdv : ¬ (d + 1 < 1 ∨ daysIn (k + 1) Y < d + 1) := by omega
  have hlt : ¬ daysIn (k + 1) Y < d + 1 := by omega
  cases zone <;> simp [hdv, hlt, hdate]

theorem parseRFC3339_format (z : Zones) (t : Time)
    (hlo : -62167219200 ≤ t.unixSec + t.loc.offset)
    (hhi : t.unixSec + t.loc.offset ≤ 253402300799)
    (hz : zoneReadsBack z t .rfc3339 = true) :
    ∃ loc, parseRFC3339 z (t.Format .rfc3339).data = some ⟨t.unixSec, 0, loc⟩ := by
  simp only [zoneReadsBack, decide_eq_true_eq] at hz
  obtain ⟨hmod, h1, h2⟩ := hz
  by_cases h0 : t.loc.offset = 0
  · have h := parseRFC3339_chunks z (t.unixSec + t.loc.offset) hlo hhi 'Z' []
      (by decide) (by decide) none rfl
    refine ⟨UTC, ?_⟩
    simp only [Time.Format, formatColonTZ, h0, if_true] at h ⊢
    rw [h]
    simp
  · obtain ⟨k, hk⟩ : ∃ k : Int, t.loc.offset = 60 * k := ⟨t.loc.offset / 60, by omega⟩
    have hk1 : -1500 < k := by omega
    have hk2 : k < 1500 := by omega
    have hc := colonTZ_offset k hk1 hk2
    have hne1 : (if k < 0 then '-' else '+') ≠ '.' := by split_ifs <;> decide
    have hne2 : (if k < 0 then '-' else '+') ≠ ',' := by split_ifs <;> decide
    have h := parseRFC3339_chunks z (t.unixSec + t.loc.offset) hlo hhi _ _ hne1 hne2 _ hc
    have hk0 : ¬ (60 * k = 0) := by omega
    refine ⟨offsetLocation z t.unixSec (60 * k), ?_⟩
    simp only [Time.Format, formatColonTZ, hk, hk0, if_false, formatOffset_colon k hk1 hk2]
    rw [hk] at h
    rw [h]
    simp

/-- The chunks of the RSS-style layout read back the date and clock `Format`
writes for a count of seconds in the years 0 to 9999. -/
theorem parseRSS_chunks (z : Zones) (u : Int) (hlo : -62167219200 ≤ u)
    (hhi : u ≤ 253402300799) (tail : List Char) (zone : Option (List Char))
    (hz : zoneName z (cutspace tail) = some (zone, [])) :
    parseRSS z (shortDayNames.getD (civil u).weekday [] ++ [',', ' ']
        ++ (if (civil u).day < 10 then [' '] else []) ++ appendInt (civil u).day 0 ++ [' ']
        ++ shortMonthNames.getD ((civil u).month - 1) [] ++ [' ']
        ++ appendInt (civil u).year 4 ++ [' '] ++ formatClock (civil u) ++ [' '] ++ tail)
      = zone.elim (some ⟨u, 0, UTC⟩)
          (fun name => (z.lookupName name u).elim
            (some ⟨u, 0, ⟨String.mk name, z.fabricatedOffset name⟩⟩)
            (fun offset => some ⟨u - offset, 0, z.localZone (u - offset)⟩)) := by
  obtain ⟨Y, k, d, hy, hY, hm, hk, hd, hdin, hh, hmi, hs, hw, hdate⟩ := civil_spec u hlo hhi
  have hd31 := daysIn_le (k + 1) Y
  obtain ⟨mc, mr, hmh, hmc⟩ := month_head k hk
  obtain ⟨y1, -, y3⟩ := digitChar_spec (Y / 1000) (by omega)
  obtain ⟨h1, -, h3⟩ := digitChar_spec ((civil u).hour / 10) (by omega)
  have hclock := clock_format (civil u).hour (civil u).min (civil u).sec hh hmi hs ' ' tail
    (fraction_other ' ' tail (by decide) (by decide))
  have hday := rssDay_format (civil u).weekday hw (d + 1) (by omega) (by omega)
    (shortMonthNames.getD k [] ++ ' ' :: (appendInt (Y : Int) 4 ++ ' ' ::
      (formatClock (civil u) ++ ' ' :: tail)))
  have hfmt : shortDayNames.getD (civil u).weekday [] ++ [',', ' ']
        ++ (if (civil u).day < 10 then [' '] else []) ++ appendInt (civil u).day 0 ++ [' ']
        ++ shortMonthNames.getD ((civil u).month - 1) [] ++ [' ']
        ++ appendInt (civil u).year 4 ++ [' '] ++ formatClock (civil u) ++ [' '] ++ tail
      = shortDayNames.getD (civil u).weekday [] ++ [',', ' ']
        ++ (if d + 1 < 10 then [' '] else []) ++ appendInt ((d + 1 : Nat) : Int) 0 ++ ' ' ::
        (shortMonthNames.getD k [] ++ ' ' :: (appendInt (Y : Int) 4 ++ ' ' ::
          (formatClock (civil u) ++ ' ' :: tail))) := by
    simp only [hy, hm, hd, Nat.add_sub_cancel, List.append_assoc,
      List.cons_append, List.nil_append]
  rw [hfmt, parseRSS, rssDate, hday]
  have hsk1 : skip (' ' :: (shortMonthNames.getD k [] ++ ' ' :: (appendInt (Y : Int) 4 ++ ' ' ::
      (formatClock (civil u) ++ ' ' :: tail)))) [' ']
      = some (shortMonthNames.getD k [] ++ ' ' :: (appendInt (Y : Int) 4 ++ ' ' ::
      (formatClock (civil u) ++ ' ' :: tail))) := by
    rw [hmh, List.cons_append, skip_space mc hmc]
  simp only [hsk1, lookup_month k hk]
  rw [appendInt_four Y hY]
  simp only [List.cons_append, List.nil_append, skip_space _ y3, longYear_pad4 Y hY]
  simp only [formatClock] at hclock ⊢
  rw [appendInt_two (civil u).hour (by omega)] at hclock ⊢
  simp only [List.cons_append, List.nil_append, List.append_assoc] at hclock ⊢
  simp only [skip_space _ h3, hclock, skip_space_cut, hz, finish]
  have hdv : ¬ (d + 1 < 1 ∨ daysIn (k + 1) Y < d + 1) := by omega
  have hlt : ¬ daysIn (k + 1) Y < d + 1 := by omega
  cases zone with
  | none => simp [hdv, hlt, hdate]
  | some name =>
    simp [hdv, hlt, hdate]
    cases z.lookupName name u <;> rfl

theorem parseRSS_format (z : Zones) (t : Time)
    (hlo : -62167219200 ≤ t.unixSec + t.loc.offset)
    (hhi : t.unixSec + t.loc.offset ≤ 253402300799)
    (hz : zoneReadsBack z t .rss = true) :
    ∃ loc, parseRSS z (t.Format .rss).data = some ⟨t.unixSec, 0, loc⟩ := by
  simp only [zoneReadsBack] at hz
  split at hz
  · rename_i hzn
    simp only [decide_eq_true_eq] at hz
    obtain ⟨hname, hoff⟩ := hz
    have h := parseRSS_chunks z (t.unixSec + t.loc.offset) hlo hhi t.loc.name.data none hzn
    refine ⟨UTC, ?_⟩
    simp only [Time.Format, formatZone, hname, ne_eq, not_false_eq_true, if_true] at h ⊢
    rw [h]
    simp [hoff]
  · rename_i name hzn
    simp only [decide_eq_true_eq] at hz
    obtain ⟨hname, hoff⟩ := hz
    have h := parseRSS_chunks z (t.unixSec + t.loc.offset) hlo hhi t.loc.name.data
      (some name) hzn
    simp only [Time.Format, formatZone, hname, ne_eq, not_false_eq_true, if_true] at h ⊢
    cases hl : z.lookupName name (t.unixSec + t.loc.offset) with
    | none =>
      rw [hl] at hoff
      simp only [Option.getD] at hoff
      refine ⟨⟨String.mk name, z.fabricatedOffset name⟩, ?_⟩
      rw [h]
      simp only [Option.elim, hl]
      rw [← hoff, Int.add_zero]
    | some offset =>
      rw [hl] at hoff
      simp only [Option.getD] at hoff
      refine ⟨z.localZone (t.unixSec + t.loc.offset - offset), ?_⟩
      rw [h]
      simp only [Option.elim, hl]
      rw [hoff, Int.add_sub_cancel]
  · cases hz

/-! ### The timestamp parser -/

theorem unmarshalLoop_pair (z : Zones) (d : xml.Decoder) (a b : Layout) :
    unmarshalLoop z [a, b] d ""
      = (match Parse z a (d.pending.getD "") with
        | some t => some t
        | none => Parse z b (d.pending.getD "")) := by
  rcases d with ⟨_ | s⟩ <;> simp only [unmarshalLoop, xml.Decoder.DecodeElement, Option.getD] <;>
    cases Parse z a _ <;> simp only [] <;> cases Parse z b _ <;> rfl

theorem unmarshalLoop_order (z : Zones) (d : xml.Decoder) (order : List Layout)
    (h : order ∈ rangeOrders) :
    unmarshalLoop z order d "" = firstLayoutThatParses z timeFmts (d.pending.getD "") := by
  simp only [rangeOrders, List.mem_cons, List.mem_singleton, List.not_mem_nil, or_false] at h
  rcases h with rfl | rfl
  · rw [unmarshalLoop_pair]
    simp only [timeFmts, firstLayoutThatParses]
    cases Parse z .rss _ <;> simp only [] <;> cases Parse z .rfc3339 _ <;> rfl
  · rw [unmarshalLoop_pair]
    simp only [timeFmts, firstLayoutThatParses]
    cases h1 : Parse z .rss (d.pending.getD "") with
    | none => cases Parse z .rfc3339 _ <;> rfl
    | some t => rw [parse_disjoint z _ t h1]

theorem UnmarshalXML_eq (z : Zones) (e : eventTime) (d : xml.Decoder) (order : List Layout)
    (h : order ∈ rangeOrders) :
    eventTime.UnmarshalXML z order e d
      = (match firstLayoutThatParses z timeFmts (d.pending.getD "") with
        | some t => (⟨t⟩, none)
        | none => (e, some .format)) := by
  unfold eventTime.UnmarshalXML
  rw [unmarshalLoop_order z d order h]

/-- C5 (as stated, refuted): the text `0001-01-01T00:00:00Z` is parsed
successfully, in either visiting order, and the success carries the
zero-value time. -/
theorem C5_zero_time_counterexample :
    eventTime.UnmarshalXML time.sampleZones [.rss, .rfc3339] ⟨⟨1704067200, 0, time.UTC⟩⟩
        ⟨some "0001-01-01T00:00:00Z"⟩ = (eventTime.zero, none)
    ∧ eventTime.UnmarshalXML time.sampleZones [.rfc3339, .rss] ⟨⟨1704067200, 0, time.UTC⟩⟩
        ⟨some "0001-01-01T00:00:00Z"⟩ = (eventTime.zero, none)
    ∧ eventTime.zero.Time.IsZero = true := by
  decide

/-- C5 (amended): whatever order the two layouts are visited in, `UnmarshalXML`
returns what trying them in the priority order of `timeFmts` (RSS style, then
RFC3339) on the element's text returns: the instant of the first layout that
parses it, or the format error with the receiver untouched; every visiting
order gives that same outcome; and the call succeeds exactly when the time it
leaves in the receiver is one `time.Parse` produced for the whole text, so it
is the zero-value time only when the text denotes that instant. -/
theorem C5_first_layout_in_priority_order (z : time.Zones) (e : eventTime)
    (d : xml.Decoder) (order : List time.Layout) (h : order ∈ rangeOrders) :
    eventTime.UnmarshalXML z order e d
      = (match firstLayoutThatParses z timeFmts (d.pending.getD "") with
        | some t => (⟨t⟩, none)
        | none => (e, some .format))
    ∧ eventTime.UnmarshalXML z [.rss, .rfc3339] e d = eventTime.UnmarshalXML z order e d
    ∧ eventTime.UnmarshalXML z [.rfc3339, .rss] e d = eventTime.UnmarshalXML z order e d
    ∧ ((eventTime.UnmarshalXML z order e d).2 = none ↔
        ∃ k ∈ timeFmts, time.Parse z k (d.pending.getD "")
          = some (eventTime.UnmarshalXML z order e d).1.Time) := by
  have ho := UnmarshalXML_eq z e d order h
  have h1 := UnmarshalXML_eq z e d [.rss, .rfc3339] (by decide)
  have h2 := UnmarshalXML_eq z e d [.rfc3339, .rss] (by decide)
  refine ⟨ho, by rw [ho, h1], by rw [ho, h2], ?_⟩
  rw [ho]
  simp only [timeFmts, firstLayoutThatParses, List.mem_cons,
    List.mem_singleton, List.not_mem_nil, or_false, exists_eq_or_imp, exists_eq_left]
  cases hr : Parse z .rss (d.pending.getD "") with
  | some t => simp
  | none =>
    cases hf : Parse z .rfc3339 (d.pending.getD "") with
    | some t => simp
    | none => simp

/-- An RSS-style date decoded with RFC3339 visited first. -/
theorem C5_first_layout_in_priority_order_witness :
    [time.Layout.rfc3339, time.Layout.rss] ∈ rangeOrders
    ∧ eventTime.UnmarshalXML time.sampleZones [.rfc3339, .rss] eventTime.zero
        ⟨some "Mon,  1 Jan 2024 00:00:00 UTC"⟩ = (⟨⟨1704067200, 0, time.UTC⟩⟩, none) :=
  ⟨by decide,
   (C5_first_layout_in_priority_order time.sampleZones eventTime.zero
      ⟨some "Mon,  1 Jan 2024 00:00:00 UTC"⟩ [.rfc3339, .rss] (by decide)).1.trans
      (by decide)⟩

/-! ### Round trip -/

theorem Parse_Format (z : Zones) (t : Time) (layout : Layout)
    (hlo : -62167219200 ≤ t.unixSec + t.loc.offset)
    (hhi : t.unixSec + t.loc.offset ≤ 253402300799)
    (hz : zoneReadsBack z t layout = true) :
    ∃ loc, Parse z layout (t.Format layout) = some ⟨t.unixSec, 0, loc⟩ := by
  cases layout with
  | rss => exact parseRSS_format z t hlo hhi hz
  | rfc3339 => exact parseRFC3339_format z t hlo hhi hz

theorem firstLayoutThatParses_Format (z : Zones) (t : Time) (layout : Layout)
    (hlo : -62167219200 ≤ t.unixSec + t.loc.offset)
    (hhi : t.unixSec + t.loc.offset ≤ 253402300799)
    (hz : zoneReadsBack z t layout = true) :
    ∃ loc, firstLayoutThatParses z timeFmts (t.Format layout) = some ⟨t.unixSec, 0, loc⟩ := by
  obtain ⟨loc, hp⟩ := Parse_Format z t layout hlo hhi hz
  refine ⟨loc, ?_⟩
  cases layout with
  | rss => simp only [timeFmts, firstLayoutThatParses, hp]
  | rfc3339 =>
    simp only [timeFmts, firstLayoutThatParses, hp]
    cases h1 : Parse z .rss (t.Format .rfc3339) with
    | none => rfl
    | some t1 =>
      have := parse_disjoint z _ t1 h1
      rw [hp] at this
      cases this

/-- C10 (as stated, refuted), whatever order the layouts are visited in: the
first second of year 10000 is written with a five-digit year and the last
second of year -1 with a minus sign, both of which are rejected; an offset of 19 minutes 32 seconds is written as `+00:19`, so the
instant read back is 32 seconds off; an offset of 25 hours is written as
`+25:00`, which is rejected; and the abbreviation `PST`, which the parsing
process cannot resolve, is read at offset 0, eight hours off. -/
theorem C10_round_trip_counterexample :
    (time.Time.Format ⟨253402300800, 0, time.UTC⟩ .rfc3339) = "10000-01-01T00:00:00Z"
    ∧ roundTrip time.sampleZones [.rss, .rfc3339] ⟨253402300800, 0, time.UTC⟩ .rfc3339
        = (eventTime.zero, some .format)
    ∧ roundTrip time.sampleZones [.rfc3339, .rss] ⟨253402300800, 0, time.UTC⟩ .rfc3339
        = (eventTime.zero, some .format)
    ∧ (time.Time.Format ⟨-62167219201, 0, time.UTC⟩ .rss) = "Fri, 31 Dec -0001 23:59:59 UTC"
    ∧ roundTrip time.sampleZones [.rss, .rfc3339] ⟨-62167219201, 0, time.UTC⟩ .rss
        = (eventTime.zero, some .format)
    ∧ roundTrip time.sampleZones [.rfc3339, .rss] ⟨-62167219201, 0, time.UTC⟩ .rss
        = (eventTime.zero, some .format)
    ∧ (roundTrip time.sampleZones [.rss, .rfc3339] ⟨1704067200, 0, ⟨"LMT", 1172⟩⟩
        .rfc3339).1.Time.unixSec = 1704067232
    ∧ (roundTrip time.sampleZones [.rfc3339, .rss] ⟨1704067200, 0, ⟨"LMT", 1172⟩⟩
        .rfc3339).1.Time.unixSec = 1704067232
    ∧ roundTrip time.sampleZones [.rss, .rfc3339] ⟨1704067200, 0, ⟨"", 90000⟩⟩ .rfc3339
        = (eventTime.zero, some .format)
    ∧ roundTrip time.sampleZones [.rfc3339, .rss] ⟨1704067200, 0, ⟨"", 90000⟩⟩ .rfc3339
        = (eventTime.zero, some .format)
    ∧ (roundTrip time.sampleZones [.rss, .rfc3339] ⟨1704067200, 0, ⟨"PST", -28800⟩⟩
        .rss).1.Time.unixSec = 1704038400
    ∧ (roundTrip time.sampleZones [.rfc3339, .rss] ⟨1704067200, 0, ⟨"PST", -28800⟩⟩
        .rss).1.Time.unixSec = 1704038400 := by
  decide

/-- C10 (amended): for every instant whose year in its own zone lies in 0 to
9999 and whose zone the layout can carry (`zoneReadsBack`: for RFC3339 an
offset of whole minutes below 25 hours, for the RSS style an abbreviation the
parser reads and resolves to the zone's offset, `UTC` included), either
layout and either visiting order: formatting the instant with the layout and
handing the text to `UnmarshalXML` succeeds and yields the same instant, to
the second. -/
theorem C10_round_trip (z : time.Zones) (t : time.Time)
    (layout : time.Layout) (order : List time.Layout) (e : eventTime)
    (hlo : -62167219200 ≤ t.unixSec + t.loc.offset)
    (hhi : t.unixSec + t.loc.offset ≤ 253402300799)
    (hz : time.zoneReadsBack z t layout = true)
    (ho : order ∈ rangeOrders) :
    ∃ loc, eventTime.UnmarshalXML z order e ⟨some (t.Format layout)⟩
      = (⟨⟨t.unixSec, 0, loc⟩⟩, none) := by
  obtain ⟨loc, hf⟩ := firstLayoutThatParses_Format z t layout hlo hhi hz
  refine ⟨loc, ?_⟩
  rw [UnmarshalXML_eq z e _ order ho]
  simp only [Option.getD, hf]

/-- Half past five in the morning of 1 January 2024 at offset +05:30,
rendered with RFC3339 and read back with the RSS style visited first. -/
theorem C10_round_trip_witness :
    (-62167219200 : Int) ≤ 1704067200 + 19800 ∧ (1704067200 + 19800 : Int) ≤ 253402300799
    ∧ time.zoneReadsBack time.sampleZones ⟨1704067200, 0, ⟨"IST", 19800⟩⟩ .rfc3339 = true
    ∧ [time.Layout.rss, time.Layout.rfc3339] ∈ rangeOrders
    ∧ ∃ loc, eventTime.UnmarshalXML time.sampleZones [.rss, .rfc3339] eventTime.zero
        ⟨some (time.Time.Format ⟨1704067200, 0, ⟨"IST", 19800⟩⟩ .rfc3339)⟩
        = (⟨⟨1704067200, 0, loc⟩⟩, none) :=
  ⟨by decide, by decide, by decide, by decide,
   C10_round_trip time.sampleZones ⟨1704067200, 0, ⟨"IST", 19800⟩⟩ .rfc3339
     [.rss, .rfc3339] eventTime.zero (by decide) (by decide) (by decide) (by decide)⟩

/-! ### The point -/

theorem NewTags_eventTags (event : InfluxEvent) :
    client.NewTags (eventTags event)
      = [("id", event.ID), ("text", event.Text), ("title", event.Title),
         ("url", event.Url)] := by
  have h1 : "id".data < "url".data := by decide
  have h2 : "title".data < "url".data := by decide
  have h3 : "id".data < "title".data := by decide
  have h4 : "text".data < "title".data := by decide
  have h5 : "id".data < "text".data := by decide
  have h6 : ¬ "title".data < "id".data := by decide
  have h7 : ¬ "text".data < "id".data := by decide
  have h8 : ¬ "title".data < "text".data := by decide
  simp only [client.NewTags, eventTags, List.foldr_cons, List.foldr_nil, client.insertTag,
    h1, h2, h3, h4, h5, h6, h7, h8, if_true, if_false]

theorem eventPoint_accepted (event : InfluxEvent) (h : (eventPoint event).2 = none) :
    (eventPoint event).1
      = some ⟨client.unescapeMeasurement event.Measurement,
          [("id", event.ID), ("text", event.Text), ("title", event.Title),
            ("url", event.Url)].filter (fun t => decide (t.2 ≠ "")),
          [("timestamp", event.Time.Unix)], event.Time.Time⟩ := by
  simp only [eventPoint, client.NewPoint] at h ⊢
  split_ifs at h ⊢
  simp only [client.keptTags, NewTags_eventTags, eventFields]

theorem eventPoint_accepted_iff (event : InfluxEvent) :
    (eventPoint event).2 = none
      ↔ ((event.Time.Time.IsZero = true ∨ client.CheckTime event.Time.Time = true)
        ∧ client.seriesKeySize event.Measurement (eventTags event) "timestamp"
            ≤ client.MaxKeyLength) := by
  simp only [eventPoint, client.NewPoint, eventFields]
  cases hz : event.Time.Time.IsZero <;> cases hc : client.CheckTime event.Time.Time <;>
    by_cases hk : client.seriesKeySize event.Measurement (eventTags event) "timestamp"
            ≤ client.MaxKeyLength <;>
    simp [hk, Nat.not_lt.mpr, Nat.lt_of_not_le]

theorem writeEventToInflux_accepted {σ : Type} (c : client.Client σ) (influx : Influx)
    (event : InfluxEvent) (st : St σ) (h : (eventPoint event).2 = none) :
    writeEventToInflux c influx event st
      = (match c.Write (eventBatch influx event) st.store with
        | .error msg => .panic msg st
        | .ok (err, store) => .ret (true, none) (check err { st with store := store })) := by
  have hp2 : client.NewPoint event.Measurement (eventTags event) (eventFields event)
      event.Time.Time = ((eventPoint event).1, none) := Prod.ext rfl h
  unfold writeEventToInflux
  rw [hp2]
  rfl

theorem replaceScan_no_head (c : Char) (old new s : List Char) (hc : c ∉ s) :
    strings.replaceScan (c :: old) new 0 s = s := by
  induction s with
  | nil => rfl
  | cons a s ih =>
    have ha : c ≠ a := fun h => hc (by simp [h])
    have hs : c ∉ s := fun h => hc (by simp [h])
    simp [strings.replaceScan, strings.startsWith, ha, ih hs]

theorem unescapeMeasurement_plain (name : String) (h : Char.ofNat 92 ∉ name.data) :
    client.unescapeMeasurement name = name := by
  simp only [client.unescapeMeasurement, strings.ReplaceAll]
  have h1 : strings.replaceScan [Char.ofNat 92, ','] [','] 0 name.data = name.data :=
    replaceScan_no_head _ _ _ _ h
  have e1 : (String.mk [Char.ofNat 92, ',']).data = [Char.ofNat 92, ','] := rfl
  have e2 : (String.mk [Char.ofNat 92, ' ']).data = [Char.ofNat 92, ' '] := rfl
  have e3 : ",".data = [','] := rfl
  have e4 : " ".data = [' '] := rfl
  simp only [e1, e2, e3, e4, reduceCtorEq, if_false, h1,
    replaceScan_no_head _ _ _ _ h]

/-- C4 (as stated, refuted): for the Atom entry of the specification the point
has three tags and no `url` key, because the library drops a tag whose value
is empty; an event dated in the year 2300 builds no point at all, and the
batch holds a nil pointer; and a source identifier with a backslash before a
comma is not the measurement of the point. -/
theorem C4_point_counterexample :
    (eventPoint (atomInfluxEvent "http://feed/" specEntry)).1.map (fun p => p.Tags)
      = some [("id", "1"), ("text", "line1<br>line2"), ("title", "A &amp; B")]
    ∧ eventPoint { sampleEvent "http://feed/" with Time := ⟨⟨10413792000, 0, time.UTC⟩⟩ }
      = (none, some (.other "time outside range"))
    ∧ (eventBatch sampleInflux
        { sampleEvent "http://feed/" with Time := ⟨⟨10413792000, 0, time.UTC⟩⟩ }).Points
      = [none]
    ∧ (eventPoint (sampleEvent (String.mk ['a', Char.ofNat 92, ',', 'b']))).1.map
        (fun p => p.Measurement) = some "a,b" := by
  decide

/-- C4 (amended): for every event that `client.NewPoint` accepts (it does
exactly when the event time is the zero time or fits 64-bit nanoseconds and
the series key is at most 65535 bytes),
`writeEventToInflux` hands `c.Write` a batch of exactly one point.  Its
measurement is the event's source identifier with the library's measurement
escapes undone (the identifier itself when it holds no backslash); its tags
are those of `id`, `text`, `title`, `url` whose value is not empty, with the
event's values; its only field is `timestamp` with the event's Unix seconds;
its time is the event's.  The call returns what that one write leads to, and
a recording client receives exactly one line.  For the Atom entry of the
specification the tags are `id`, `text`, `title` and the field is
1704067200, the `updated` text decoding to that time in either visiting
order. -/
theorem C4_one_point_per_accepted_event {σ : Type} (c : client.Client σ) (influx : Influx)
    (event : InfluxEvent) (st : St σ) (lines : St (List client.Line))
    (h : (eventPoint event).2 = none) :
    (eventBatch influx event).Points
      = [some { Measurement := client.unescapeMeasurement event.Measurement
                Tags := [("id", event.ID), ("text", event.Text), ("title", event.Title),
                  ("url", event.Url)].filter (fun t => decide (t.2 ≠ ""))
                Fields := [("timestamp", event.Time.Unix)]
                Time := event.Time.Time }]
    ∧ (Char.ofNat 92 ∉ event.Measurement.data →
        client.unescapeMeasurement event.Measurement = event.Measurement)
    ∧ ((eventPoint event).2 = none
        ↔ ((event.Time.Time.IsZero = true ∨ client.CheckTime event.Time.Time = true)
          ∧ client.seriesKeySize event.Measurement (eventTags event) "timestamp"
              ≤ client.MaxKeyLength))
    ∧ writeEventToInflux c influx event st
      = (match c.Write (eventBatch influx event) st.store with
        | .error msg => .panic msg st
        | .ok (err, store) => .ret (true, none) (check err { st with store := store }))
    ∧ (∃ line, writeEventToInflux (recordingClient true) influx event lines
        = .ret (true, none) { lines with store := lines.store ++ [line] })
    ∧ (eventBatch sampleInflux (atomInfluxEvent "http://feed/" specEntry)).Points
      = [some { Measurement := "http://feed/"
                Tags := [("id", "1"), ("text", "line1<br>line2"), ("title", "A &amp; B")]
                Fields := [("timestamp", 1704067200)]
                Time := ⟨1704067200, 0, time.UTC⟩ }]
    ∧ eventTime.UnmarshalXML time.sampleZones [.rss, .rfc3339] eventTime.zero
        ⟨some "2024-01-01T00:00:00Z"⟩ = (specEntry.Updated, none)
    ∧ eventTime.UnmarshalXML time.sampleZones [.rfc3339, .rss] eventTime.zero
        ⟨some "2024-01-01T00:00:00Z"⟩ = (specEntry.Updated, none) := by
  have hp := eventPoint_accepted event h
  have hb : (eventBatch influx event).Points = [(eventPoint event).1] := rfl
  have hw := writeEventToInflux_accepted c influx event st h
  have hw2 := writeEventToInflux_accepted (recordingClient true) influx event lines h
  refine ⟨by rw [hb, hp], unescapeMeasurement_plain _, eventPoint_accepted_iff event, hw, ?_,
    by decide, by decide, by decide⟩
  rw [hw2]
  simp only [recordingClient, hb, hp]
  exact ⟨_, rfl⟩

/-- The event of the specification's Atom entry from the source
`http://feed/`, written through a recording client. -/
theorem C4_one_point_per_accepted_event_witness :
    (eventPoint (sampleEvent "http://feed/")).2 = none
    ∧ (eventBatch sampleInflux (sampleEvent "http://feed/")).Points
      = [some { Measurement := "http://feed/"
                Tags := [("id", "1"), ("text", "line1<br>line2"), ("title", "A &amp; B")]
                Fields := [("timestamp", 1704067200)]
                Time := ⟨1704067200, 0, time.UTC⟩ }] :=
  ⟨by decide,
   (C4_one_point_per_accepted_event (recordingClient true) sampleInflux
      (sampleEvent "http://feed/") ⟨[], []⟩ ⟨[], []⟩ (by decide)).1.trans (by decide)⟩

/-! ### Deduplication -/

theorem dedupKey_eq (e1 e2 : InfluxEvent) (p1 p2 : client.Point)
    (h1 : eventPoint e1 = (some p1, none)) (h2 : eventPoint e2 = (some p2, none))
    (ht : eventTags e1 = eventTags e2) (htime : e1.Time = e2.Time) :
    dedupKey (p1.PrecisionString "s") = dedupKey (p2.PrecisionString "s") := by
  have a1 := eventPoint_accepted e1 (by rw [h1])
  have a2 := eventPoint_accepted e2 (by rw [h2])
  rw [h1] at a1
  rw [h2] at a2
  simp only [Option.some.injEq] at a1 a2
  simp only [eventTags, List.cons.injEq, Prod.mk.injEq, true_and, and_true] at ht
  obtain ⟨t1, t2, t3, t4⟩ := ht
  subst a1 a2
  simp only [dedupKey, client.Point.PrecisionString, t1, t2, t3, t4, htime]

/-- C9 (the code at an undated item): an RSS item without `pubDate` keeps the
zero time, and the point built from it is written without a timestamp.
Written twice, the client receives two lines whose dedup key has no `Time`,
for the server to stamp on arrival; and an event dated in the year 2300
builds no point, so nothing is written for it: the batch holds a nil pointer,
which a client skips or dereferences. -/
theorem C9_undated_item_written_twice :
    (rssInfluxEvent "http://feed/" undatedItem).Time.Time.IsZero = true
    ∧ writeAll (recordingClient true) sampleInflux
        [rssInfluxEvent "http://feed/" undatedItem, rssInfluxEvent "http://feed/" undatedItem]
        ⟨[], []⟩
      = .ret () ⟨[],
          [{ Measurement := "http://feed/"
             Tags := [("text", "body"), ("title", "News"), ("url", "g1")]
             Fields := [("timestamp", -62135596800)]
             Timestamp := none },
           { Measurement := "http://feed/"
             Tags := [("text", "body"), ("title", "News"), ("url", "g1")]
             Fields := [("timestamp", -62135596800)]
             Timestamp := none }]⟩
    ∧ dedupKey { Measurement := "http://feed/"
                 Tags := [("text", "body"), ("title", "News"), ("url", "g1")]
                 Fields := [("timestamp", -62135596800)]
                 Timestamp := none }
      = ([("text", "body"), ("title", "News"), ("url", "g1")], none)
    ∧ writeAll (recordingClient false) sampleInflux
        [{ sampleEvent "http://feed/" with Time := ⟨⟨10413792000, 0, time.UTC⟩⟩ },
         { sampleEvent "http://feed/" with Time := ⟨⟨10413792000, 0, time.UTC⟩⟩ }]
        ⟨[], []⟩
      = .ret () ⟨[.error (.other "time outside range"), .error (.other "time outside range")],
          []⟩
    ∧ writeAll (recordingClient true) sampleInflux
        [{ sampleEvent "http://feed/" with Time := ⟨⟨10413792000, 0, time.UTC⟩⟩ },
         { sampleEvent "http://feed/" with Time := ⟨⟨10413792000, 0, time.UTC⟩⟩ }]
        ⟨[], []⟩
      = .panic "nil pointer dereference" ⟨[.error (.other "time outside range")], []⟩ := by
  decide

end RssInflux
